import Mathlib

/-
Formal model of the mucal calendar core (Go repository proofrock/mucal).

The Go sources are shallowly embedded as follows:
- Go strings are modelled as List Char (Go compares and scans bytes; all the
  characters the code branches on are ASCII, and UTF-8 byte order agrees with
  code-point order, so the List Char model is faithful for these operations).
- time.Time is modelled as GoTime: an absolute instant (unix, in seconds) plus
  the location the value is represented in, mirroring Go's (wall clock,
  *Location) pair.  time.Location is modelled as a fixed-offset zone (Tz).
  Durations are in seconds.
- Fallible Go functions return Option.
- Third-party libraries (go-ical property bags, teambition/rrule-go, the Go
  standard time parser) are external collaborators: the fixed parse layouts
  used by the repository are embedded directly (they are plain fixed-width
  digit formats; a bare trailing Z in a Go layout is a literal character, not
  a zone directive), and the rrule Set is modelled by its documented
  behaviour: the raw candidate list of the rule is an explicit parameter and
  EXDATE removal filters it by exact instant equality.
-/

namespace Mucal

/-! ## Character and string utilities -/

def isDigitCh (c : Char) : Bool := 48 ≤ c.toNat && c.toNat ≤ 57

/-- Numeric value of a list of decimal digit characters, most significant first. -/
def digitsVal (ds : List Char) : Nat := ds.foldl (fun a c => a * 10 + (c.toNat - 48)) 0

/-- Fixed-width decimal rendering (zero padded), as in Go formatting. -/
def padNum : Nat → Nat → List Char
  | 0, _ => []
  | k + 1, v => padNum k (v / 10) ++ [Char.ofNat (48 + v % 10)]

/-- Model of Go strconv.Atoi on a 64-bit platform: optional sign, then one
or more decimal digits, nothing else, and the value must fit in int64 — an
out-of-range digit string is an ErrRange PARSE FAILURE (the callers treat
any non-nil error alike), not a value. -/
def goAtoi (s : List Char) : Option Int :=
  match s with
  | [] => none
  | c :: rest =>
    if c = '+' then
      if rest ≠ [] ∧ rest.all isDigitCh then
        if ((digitsVal rest : Nat) : Int) ≤ 9223372036854775807 then
          some ((digitsVal rest : Nat) : Int)
        else none
      else none
    else if c = '-' then
      if rest ≠ [] ∧ rest.all isDigitCh then
        if ((digitsVal rest : Nat) : Int) ≤ 9223372036854775808 then
          some (-((digitsVal rest : Nat) : Int))
        else none
      else none
    else
      if (c :: rest).all isDigitCh then
        if ((digitsVal (c :: rest) : Nat) : Int) ≤ 9223372036854775807 then
          some ((digitsVal (c :: rest) : Nat) : Int)
        else none
      else none

/-- Model of Go strings.Split with a one-character separator. -/
def splitOn (sep : Char) : List Char → List (List Char)
  | [] => [[]]
  | c :: rest =>
    if c = sep then [] :: splitOn sep rest
    else
      match splitOn sep rest with
      | [] => [[c]]
      | p :: ps => (c :: p) :: ps

/-- Model of Go strings.TrimSuffix with a one-character suffix. -/
def trimSuffixC (sep : Char) (s : List Char) : List Char :=
  match s.getLast? with
  | some c => if c = sep then s.dropLast else s
  | none => s

/-- Model of Go strings.Index with a one-character needle (callers only use it
when the needle is known to occur). -/
def indexOfC (c : Char) : List Char → Nat
  | [] => 0
  | x :: xs => if x = c then 0 else indexOfC c xs + 1

/-- Lexicographic comparison of Go strings (byte order = code-point order). -/
def strLt : List Char → List Char → Bool
  | [], [] => false
  | [], _ :: _ => true
  | _ :: _, [] => false
  | a :: as, b :: bs =>
    if a < b then true
    else if b < a then false
    else strLt as bs

/-! ## Calendar arithmetic (proleptic Gregorian, as used by Go time) -/

def isLeap (y : Int) : Bool := y % 4 == 0 && (y % 100 != 0 || y % 400 == 0)

def daysInMonth (y : Int) (m : Nat) : Nat :=
  if m = 2 then (if isLeap y then 29 else 28)
  else if m = 4 ∨ m = 6 ∨ m = 9 ∨ m = 11 then 30
  else 31

def daysInYear (y : Int) : Nat := if isLeap y then 366 else 365

/-- Days from the first of month 1 of year y to the first of month m of year y. -/
def daysBeforeMonth (y : Int) : Nat → Nat
  | 0 => 0
  | 1 => 0
  | m + 2 => daysBeforeMonth y (m + 1) + daysInMonth y (m + 1)

/-- Auxiliary: days in years 1970, ..., 1969 + k. -/
def daysUpTo : Nat → Int
  | 0 => 0
  | k + 1 => daysUpTo k + daysInYear (1970 + k)

/-- Auxiliary: days in years 1970 - k, ..., 1969. -/
def daysDownTo : Nat → Int
  | 0 => 0
  | k + 1 => daysDownTo k + daysInYear (1969 - k)

/-- Days from 1970-01-01 to the first of January of year y (negative before 1970). -/
def daysBeforeYear (y : Int) : Int :=
  if 1970 ≤ y then daysUpTo (y - 1970).toNat else -(daysDownTo (1970 - y).toNat)

/-- Day number (days since 1970-01-01) of the civil date y-m-d. -/
def daysFromCivil (y : Int) (m d : Nat) : Int :=
  daysBeforeYear y + (daysBeforeMonth y m : Int) + (d : Int) - 1

/-! Inverse conversion: fuel-bounded search, adequate for the day numbers the
theorems and witnesses evaluate it at. -/

def yearSearchUp : Nat → Int → Int → Int × Int
  | 0, y, n => (y, n)
  | fuel + 1, y, n =>
    if n < (daysInYear y : Int) then (y, n) else yearSearchUp fuel (y + 1) (n - daysInYear y)

def yearSearchDown : Nat → Int → Int → Int × Int
  | 0, y, n => (y, n)
  | fuel + 1, y, n =>
    if 0 ≤ n then (y, n) else yearSearchDown fuel (y - 1) (n + daysInYear (y - 1))

def monthSearch : Nat → Int → Nat → Int → Nat × Int
  | 0, _, m, rem => (m, rem)
  | fuel + 1, y, m, rem =>
    if rem < (daysInMonth y m : Int) then (m, rem) else monthSearch fuel y (m + 1) (rem - daysInMonth y m)

/-- Civil date (year, month, day) of a day number. -/
def civilOfDays (n : Int) : Int × Nat × Nat :=
  let p := if 0 ≤ n then yearSearchUp (n.toNat / 365 + 1) 1970 n
           else yearSearchDown ((-n).toNat / 365 + 2) 1970 n
  let q := monthSearch 12 p.1 1 p.2
  (p.1, q.1, q.2.toNat + 1)

/-! ## The Go time model -/

/-- Model of a Go *time.Location: a named fixed-offset zone (seconds east of UTC). -/
structure Tz where
  name : String
  offset : Int
deriving DecidableEq, Repr

def utcTz : Tz := { name := "UTC", offset := 0 }

/-- Model of a Go time.Time: absolute instant plus the location it is
represented in. -/
structure GoTime where
  unix : Int
  loc : Tz
deriving DecidableEq, Repr

namespace GoTime

/-- Model of t.In(loc): same instant, new representation location. -/
def inTz (t : GoTime) (tz : Tz) : GoTime := { unix := t.unix, loc := tz }

/-- Model of t.Add(d) for a duration of d seconds: Go Add keeps the location. -/
def add (t : GoTime) (d : Int) : GoTime := { t with unix := t.unix + d }

/-- Day number of the local civil date of t. -/
def localDays (t : GoTime) : Int := (t.unix + t.loc.offset).fdiv 86400

/-- Seconds since local midnight. -/
def localSecs (t : GoTime) : Int := (t.unix + t.loc.offset).emod 86400

def civil (t : GoTime) : Int × Nat × Nat := civilOfDays t.localDays

/-- Model of t.Year(). -/
def year (t : GoTime) : Int := t.civil.1

/-- Model of t.Month() (as a number 1..12). -/
def month (t : GoTime) : Nat := t.civil.2.1

/-- Model of t.Day(). -/
def day (t : GoTime) : Nat := t.civil.2.2

end GoTime

/-- The instant whose wall clock in tz reads y-m-d hh:mm:ss. -/
def mkTimeInLoc (y : Int) (m d hh mm ss : Nat) (tz : Tz) : GoTime :=
  { unix := daysFromCivil y m d * 86400 + (hh : Int) * 3600 + (mm : Int) * 60 + (ss : Int) - tz.offset
    loc := tz }

/-! ## Fixed parse layouts used by the repository

Go's reference-layout parser, instantiated at the five constant layouts the
code uses.  Parsing consumes the whole input and validates field ranges, as
Go does.  A bare trailing Z in a Go layout is a literal character carrying no
zone information (only Z0700-style sequences are zone directives), so the
layout 20060102T150405Z matches a literal Z and the location of the result is
whatever location the parse call supplies. -/

def parseNDigits (n : Nat) (s : List Char) : Option (Nat × List Char) :=
  let pre := s.take n
  if pre.length = n ∧ pre.all isDigitCh then some (digitsVal pre, s.drop n) else none

def expectChar (c : Char) : List Char → Option (List Char)
  | [] => none
  | x :: xs => if x = c then some xs else none

def validYMD (y : Int) (m d : Nat) : Bool :=
  1 ≤ m && m ≤ 12 && 1 ≤ d && d ≤ daysInMonth y m

def validHMS (hh mm ss : Nat) : Bool := hh ≤ 23 && mm ≤ 59 && ss ≤ 59

/-- Layout 20060102 (full match). -/
def parseLayoutDate (s : List Char) : Option (Int × Nat × Nat) := do
  let (y, r1) ← parseNDigits 4 s
  let (m, r2) ← parseNDigits 2 r1
  let (d, r3) ← parseNDigits 2 r2
  if r3 = [] ∧ validYMD (y : Int) m d then some ((y : Int), m, d) else none

/-- Layout 20060102T150405 (full match). -/
def parseLayoutDateTime (s : List Char) : Option (Int × Nat × Nat × Nat × Nat × Nat) := do
  let (y, r1) ← parseNDigits 4 s
  let (m, r2) ← parseNDigits 2 r1
  let (d, r3) ← parseNDigits 2 r2
  let r4 ← expectChar 'T' r3
  let (hh, r5) ← parseNDigits 2 r4
  let (mm, r6) ← parseNDigits 2 r5
  let (ss, r7) ← parseNDigits 2 r6
  if r7 = [] ∧ validYMD (y : Int) m d ∧ validHMS hh mm ss then
    some ((y : Int), m, d, hh, mm, ss)
  else none

/-- Layout 20060102T150405Z: the same, then a literal Z (full match). -/
def parseLayoutDateTimeZ (s : List Char) : Option (Int × Nat × Nat × Nat × Nat × Nat) := do
  let (y, r1) ← parseNDigits 4 s
  let (m, r2) ← parseNDigits 2 r1
  let (d, r3) ← parseNDigits 2 r2
  let r4 ← expectChar 'T' r3
  let (hh, r5) ← parseNDigits 2 r4
  let (mm, r6) ← parseNDigits 2 r5
  let (ss, r7) ← parseNDigits 2 r6
  let r8 ← expectChar 'Z' r7
  if r8 = [] ∧ validYMD (y : Int) m d ∧ validHMS hh mm ss then
    some ((y : Int), m, d, hh, mm, ss)
  else none

/-- Layout 2006-01-02 (full match). -/
def parseLayoutDashDate (s : List Char) : Option (Int × Nat × Nat) := do
  let (y, r1) ← parseNDigits 4 s
  let r2 ← expectChar '-' r1
  let (m, r3) ← parseNDigits 2 r2
  let r4 ← expectChar '-' r3
  let (d, r5) ← parseNDigits 2 r4
  if r5 = [] ∧ validYMD (y : Int) m d then some ((y : Int), m, d) else none

/-- Go time.ParseInLocation with layout 20060102: wall clock in loc. -/
def goParseInLocDate (s : List Char) (tz : Tz) : Option GoTime :=
  (parseLayoutDate s).map (fun p => mkTimeInLoc p.1 p.2.1 p.2.2 0 0 0 tz)

/-- Go time.ParseInLocation with layout 20060102T150405: wall clock in loc. -/
def goParseInLocDateTime (s : List Char) (tz : Tz) : Option GoTime :=
  (parseLayoutDateTime s).map
    (fun p => mkTimeInLoc p.1 p.2.1 p.2.2.1 p.2.2.2.1 p.2.2.2.2.1 p.2.2.2.2.2 tz)

/-- Go time.ParseInLocation with layout 20060102T150405Z: the Z is a literal,
so the value is still a wall clock in the supplied location. -/
def goParseInLocDateTimeZ (s : List Char) (tz : Tz) : Option GoTime :=
  (parseLayoutDateTimeZ s).map
    (fun p => mkTimeInLoc p.1 p.2.1 p.2.2.1 p.2.2.2.1 p.2.2.2.2.1 p.2.2.2.2.2 tz)

/-- Go time.ParseInLocation with layout 2006-01-02: wall clock in loc. -/
def goParseInLocDashDate (s : List Char) (tz : Tz) : Option GoTime :=
  (parseLayoutDashDate s).map (fun p => mkTimeInLoc p.1 p.2.1 p.2.2 0 0 0 tz)

/-! ## iCalendar model (go-ical property bags, restricted to the properties
the repository requests) -/

/-- One iCalendar property: raw value text plus parameters.  go-ical
Params.Get returns the first value for a name, or the empty string. -/
structure ICalProp where
  value : List Char
  params : List (String × String)
deriving DecidableEq, Repr

def getParam (p : ICalProp) (nm : String) : String :=
  ((p.params.find? (fun q => q.1 = nm)).map (fun q => q.2)).getD ""

/-- One VEVENT component, as the repository reads it: Props.Get of each of the
requested property names (none when the property is absent). -/
structure VEvent where
  uid : Option ICalProp
  summary : Option ICalProp
  description : Option ICalProp
  location : Option ICalProp
  dtstart : Option ICalProp
  dtend : Option ICalProp
  duration : Option ICalProp
  rrule : Option ICalProp
  exdate : Option ICalProp
deriving Repr

/-- Model of caldav.Client: the configured display timezone, the calendar
name and color, and the external zone database (time.LoadLocation). -/
structure Client where
  timezone : Tz
  name : String
  color : String
  loadLocation : String → Option Tz

/-- Model of caldav.Event (event.go).  The Go field End is named endT because
end is a Lean keyword; summary and friends are Go strings (List Char). -/
structure Event where
  uid : List Char
  summary : List Char
  description : List Char
  location : List Char
  start : GoTime
  endT : GoTime
  allDay : Bool
  calendarName : String
  calendarColor : String
  isRecurring : Bool
deriving DecidableEq, Repr

/-! ## client.go -/

/-- unescapeICalText (client.go lines 311-336): single left-to-right scan.
The Go loop indexes bytes; the branch characters are ASCII, so the list form
is equivalent: a backslash with at least one following character dispatches
on that character, a trailing backslash falls into the plain-copy branch. -/
def unescapeICalText : List Char → List Char
  | [] => []
  | '\\' :: next :: rest =>
    if next = ',' ∨ next = ';' ∨ next = '\\' then next :: unescapeICalText rest
    else if next = 'n' ∨ next = 'N' then '\n' :: unescapeICalText rest
    else '\\' :: unescapeICalText (next :: rest)
  | c :: rest => c :: unescapeICalText rest

/-- parseDateTime (client.go lines 248-302). -/
def parseDateTime (tz : Tz) (loadLocation : String → Option Tz) (prop : ICalProp) :
    Option (GoTime × Bool) :=
  let valueType := getParam prop "VALUE"
  if valueType = "DATE" then
    -- bare date: parsed in the display timezone, returned directly (all-day)
    (goParseInLocDate prop.value tz).map (fun t => (t, true))
  else
    let tzid := getParam prop "TZID"
    let t? : Option GoTime :=
      if tzid ≠ "" then
        let loc := (loadLocation tzid).getD tz
        match goParseInLocDateTime prop.value loc with
        | some t => some t
        | none => goParseInLocDateTimeZ prop.value utcTz
      else
        match prop.value.getLast? with
        | some 'Z' => goParseInLocDateTimeZ prop.value utcTz
        | _ => goParseInLocDateTime prop.value tz
    t?.map (fun t => (t.inTz tz, false))

/-! ## recurring.go -/

/-! Go time.Duration is an int64 count of nanoseconds; its arithmetic is
two's-complement and wraps silently.  wrap64 maps an integer to its
representative modulo 2^64 in the int64 range, and wadd, wmul, wneg are the
wrapping int64 operations the Go expressions perform. -/

def wrap64 (x : Int) : Int :=
  (x + 9223372036854775808) % 18446744073709551616 - 9223372036854775808

def wadd (a b : Int) : Int := wrap64 (a + b)

def wmul (a b : Int) : Int := wrap64 (a * b)

def wneg (a : Int) : Int := wrap64 (-a)

/-- The date-part branch of parseDuration (recurring.go lines 153-170):
weeks when a W occurs (time.Duration(weeks) * 7 * 24 * time.Hour, every
operation wrapping int64 nanoseconds), else days when a D occurs
(time.Duration(days) * 24 * time.Hour), else no contribution. -/
def parseDatePart (datePart : List Char) : Option Int :=
  if datePart.elem 'W' then
    (goAtoi (trimSuffixC 'W' datePart)).map
      (fun w => wmul (wmul (wmul w 7) 24) 3600000000000)
  else if datePart.elem 'D' then
    (goAtoi (trimSuffixC 'D' datePart)).map (fun d => wmul (wmul d 24) 3600000000000)
  else some 0

/-- One unit block of the time part (recurring.go lines 177-206; the three
blocks for H, M and S are textually identical up to the unit letter and
multiplier — time.Hour, time.Minute or time.Second in nanoseconds): if the
unit letter occurs, the text before its first occurrence must parse as an
integer, contributing value times mult with wrapping int64 multiplication,
and the scan continues after the letter; otherwise no contribution and the
text is left as is.  (For S the continuation is computed but unused, as in
the code.) -/
def timeChunk (u : Char) (mult : Int) (remaining : List Char) :
    Option (Int × List Char) :=
  if remaining.elem u then
    let idx := indexOfC u remaining
    (goAtoi (remaining.take idx)).map (fun h => (wmul h mult, remaining.drop (idx + 1)))
  else some (0, remaining)

/-- The time-part branch of parseDuration (recurring.go lines 173-207), run
only on a nonempty time part: hours, then minutes, then seconds, each added
to the running duration with wrapping int64 addition, as the Go += does. -/
def parseTimePart (duration : Int) (timePart : List Char) : Option Int := do
  let (hSecs, rem1) ← timeChunk 'H' 3600000000000 timePart
  let (mSecs, rem2) ← timeChunk 'M' 60000000000 rem1
  let (sSecs, _) ← timeChunk 'S' 1000000000 rem2
  some (wadd (wadd (wadd duration hSecs) mSecs) sSecs)

/-- The leading-sign test of parseDuration (recurring.go line 136): the
value starts with -P. -/
def durIsNeg : List Char → Bool
  | '-' :: 'P' :: _ => true
  | _ => false

/-- The prefix test of parseDuration (recurring.go line 132): the value
starts with P. -/
def durHasP : List Char → Bool
  | 'P' :: _ => true
  | _ => false

/-- parseDuration (recurring.go lines 129-214), exact: the result is the
int64 count of NANOSECONDS the Go function returns, including silent int64
wraparound for totals beyond the int64 range (the accumulator duration
starts at 0, so the date contribution enters it unchanged: it is already an
int64 representative). -/
def parseDurationNs (value : List Char) : Option Int :=
  let negative := durIsNeg value
  let hasP := durHasP value
  if !(hasP || negative) then none
  else
    let v := if negative = true then value.drop 2 else value.drop 1
    let parts := splitOn 'T' v
    let datePart := parts.headD []
    let timePart := if parts.length > 1 then (parts.get? 1).getD [] else []
    do
      let duration ← parseDatePart datePart
      let total ← if timePart = [] then some duration else parseTimePart duration timePart
      some (if negative = true then wneg total else total)

/-- The parsed duration at the model's second resolution, used where the
code feeds the time.Duration into time.Time.Add: the model tracks instants
as whole seconds, and adding a nanosecond duration to a second-aligned
instant yields the instant whose floor-to-second is start + floor(d / 1e9);
whenever no int64 wrap occurred the parsed duration is an exact multiple of
one second and this is exactly the parsed number of seconds. -/
def parseDuration (value : List Char) : Option Int :=
  (parseDurationNs value).map (fun d => d.fdiv 1000000000)

/-- parseICalDate (recurring.go lines 216-233): tries the three layouts in
order, every one via ParseInLocation with the supplied (display) timezone.
The Z of the first layout is literal, so even Z-suffixed values are
interpreted as wall clock in tz. -/
def parseICalDate (value : List Char) (tz : Tz) : Option GoTime :=
  match goParseInLocDateTimeZ value tz with
  | some t => some t
  | none =>
    match goParseInLocDateTime value tz with
    | some t => some t
    | none => goParseInLocDate value tz

/-- The EXDATE handling of expandRecurringEvent (recurring.go lines 66-79):
split the property value on commas, parse each entry with parseICalDate, skip
entries that fail (logged warning), collect the rest. -/
def parseExdates (tz : Tz) (exdateProp : Option ICalProp) : List GoTime :=
  match exdateProp with
  | none => []
  | some p => (splitOn ',' p.value).filterMap (fun s => parseICalDate s tz)

/-- Model of rrule-go Set.Between on a set holding one rule and the exclusion
dates: the raw candidates of the rule (an input here, produced by the
external rule engine) minus the exclusions, removed by exact instant
equality. -/
def rsetBetween (ruleCandidates : List GoTime) (exdates : List GoTime) : List GoTime :=
  ruleCandidates.filter (fun t => !(exdates.any (fun e => e.unix == t.unix)))

/-- Go t.Format("20060102T150405"): the local wall clock of t, fixed width. -/
def formatDT (t : GoTime) : List Char :=
  let c := t.civil
  let tod := t.localSecs
  padNum 4 c.1.toNat ++ padNum 2 c.2.1 ++ padNum 2 c.2.2 ++
    'T' :: (padNum 2 (tod.fdiv 3600).toNat ++ padNum 2 ((tod.emod 3600).fdiv 60).toNat ++
      padNum 2 (tod.emod 60).toNat)

/-- The occurrence record the expansion loop builds per retained candidate
(recurring.go lines 110-121): start is the candidate converted to the
display timezone, end is start plus the original series duration, the UID is
the base UID plus the formatted start. -/
def mkOccurrence (c : Client) (uid summary description location : List Char)
    (allDay : Bool) (duration : Int) (occStart : GoTime) : Event :=
  { uid := uid ++ '_' :: formatDT occStart
    summary := summary
    description := description
    location := location
    start := occStart
    endT := occStart.add duration
    allDay := allDay
    calendarName := c.name
    calendarColor := c.color
    isRecurring := true }

/-- expandRecurringEvent (recurring.go lines 28-127).  The external rule
engine is abstracted by two oracle arguments: rruleOk (whether
StrToROption/NewRRule accept the rule text) and ruleCandidates (what the bare
rule enumerates inside the buffered window, earliest first). -/
def expandRecurringEvent (c : Client) (comp : VEvent)
    (uid summary description location : List Char)
    (startTime endTime : GoTime) (allDay : Bool) (queryStart queryEnd : GoTime)
    (rruleOk : Bool) (ruleCandidates : List GoTime) : Option (List Event) :=
  match comp.rrule with
  | none => none
  | some _ =>
    if rruleOk = false then none
    else
      let exdates := parseExdates c.timezone comp.exdate
      let occurrences := rsetBetween ruleCandidates exdates
      let occurrences := occurrences.take 1000
      let duration := endTime.unix - startTime.unix
      some (occurrences.filterMap (fun occurrence =>
        let occStart := occurrence.inTz c.timezone
        let occEnd := occStart.add duration
        if occEnd.unix < queryStart.unix ∨ queryEnd.unix < occStart.unix then none
        else some (mkOccurrence c uid summary description location allDay duration occStart)))

/-- The end-time resolution chain of parseEvent (client.go lines 196-220):
an explicit DTEND if present, else DTSTART plus a parsed DURATION if present,
else one day after the start for all-day events, else the start itself. -/
def resolveEnd (c : Client) (comp : VEvent) (startTime : GoTime) (allDay : Bool) :
    Option GoTime :=
  match comp.dtend with
  | some dtend => (parseDateTime c.timezone c.loadLocation dtend).map (fun p => p.1)
  | none =>
    match comp.duration with
    | some dprop => (parseDuration dprop.value).map (fun dur => startTime.add dur)
    | none => some (if allDay then startTime.add 86400 else startTime)

/-- parseEvent (client.go lines 163-245), with the same two oracle arguments
threaded through for the recurring branch. -/
def parseEvent (c : Client) (comp : VEvent) (queryStart queryEnd : GoTime)
    (rruleOk : Bool) (ruleCandidates : List GoTime) : Option (List Event) :=
  match comp.uid with
  | none => none
  | some uid =>
    let summary := match comp.summary with
      | some p => unescapeICalText p.value
      | none => []
    let description := match comp.description with
      | some p => unescapeICalText p.value
      | none => []
    let location := match comp.location with
      | some p => unescapeICalText p.value
      | none => []
    match comp.dtstart with
    | none => none
    | some dtstart =>
      match parseDateTime c.timezone c.loadLocation dtstart with
      | none => none
      | some (startTime, allDay) =>
        match resolveEnd c comp startTime allDay with
        | none => none
        | some endTime =>
          match comp.rrule with
          | some _ =>
            expandRecurringEvent c comp uid.value summary description location
              startTime endTime allDay queryStart queryEnd rruleOk ruleCandidates
          | none => some [{
              uid := uid.value
              summary := summary
              description := description
              location := location
              start := startTime
              endT := endTime
              allDay := allDay
              calendarName := c.name
              calendarColor := c.color
              isRecurring := false }]

/-! ## event.go: the ordering policy -/

/-- Events.Less (event.go lines 43-56): all-day first, then start instant
(Go Equal and Before compare instants), then summary bytes. -/
def eventLess (a b : Event) : Bool :=
  if a.allDay ≠ b.allDay then a.allDay
  else if a.start.unix ≠ b.start.unix then a.start.unix < b.start.unix
  else strLt a.summary b.summary

/-- The non-strict companion of eventLess: a may stay before b. -/
def eventLe (a b : Event) : Prop := eventLess b a = false

instance : DecidableRel eventLe := fun a b => by unfold eventLe; infer_instance

/-- Sorting with the comparator, modelling sort.Sort(Events(...)). -/
def sortEvents (l : List Event) : List Event := l.insertionSort eventLe

/-! ## handler.go -/

/-- The aggregation core of Handler.GetEvents (handler.go lines 107-155):
per-source fetch results come in (collection order abstracts the goroutine
interleaving), successes are concatenated, failures collected; if there are
failures and the merged event list is empty the handler answers with an
error, otherwise it sorts and answers with the merged events. -/
def getEventsAggregate (results : List (Except String (List Event))) :
    Except String (List Event) :=
  let allEvents := results.foldr
    (fun r acc => match r with | .ok evs => evs ++ acc | .error _ => acc) []
  let errs := results.foldr
    (fun r acc => match r with | .ok _ => acc | .error e => e :: acc) []
  if errs ≠ [] ∧ allEvents = [] then .error (String.intercalate "; " errs)
  else .ok (sortEvents allEvents)

/-- The query-window computation of Handler.GetEvents (handler.go lines
82-105): both date parameters are parsed with layout 2006-01-02 in the
display timezone, a missing parameter or a parse failure is a 400 error, and
one day (24 hours) is added to the parsed end before any fetch. -/
def getEventsWindow (startStr endStr : List Char) (tz : Tz) : Option (GoTime × GoTime) :=
  if startStr = [] ∨ endStr = [] then none
  else do
    let s ← goParseInLocDashDate startStr tz
    let e ← goParseInLocDashDate endStr tz
    some (s, e.add 86400)

/-- The day-walk inside Handler.GetEventsMonth (handler.go line 228): from
the event start, step 24 hours at a time while still before the event end and
still inside the requested month number.  The Go loop is a while loop; fuel
is one step more than the interval can hold, so it never cuts the loop
short. -/
def monthWalk : Nat → GoTime → GoTime → Nat → List Nat
  | 0, _, _, _ => []
  | fuel + 1, d, endT, m =>
    if d.unix < endT.unix ∧ d.month = m then d.day :: monthWalk fuel (d.add 86400) endT m
    else []

def walkFuel (d endT : GoTime) : Nat := ((endT.unix - d.unix).toNat / 86400) + 1

/-- The day marks one event contributes in Handler.GetEventsMonth (handler.go
lines 219-232): the day of month of the event start unconditionally, plus,
for non-all-day events, the walked days. -/
def eventDays (tz : Tz) (m : Nat) (ev : Event) : List Nat :=
  let s := ev.start.inTz tz
  s.day :: (if ev.allDay then [] else monthWalk (walkFuel s (ev.endT.inTz tz)) s (ev.endT.inTz tz) m)

/-- The day-bucket set of Handler.GetEventsMonth, as a list whose membership
is the membership in the Go map daysSet. -/
def getEventsMonthDays (tz : Tz) (m : Nat) (events : List Event) : List Nat :=
  events.foldr (fun ev acc => eventDays tz m ev ++ acc) []

/-! ## Concrete fixtures used by witnesses and counterexamples -/

def tzPlus1 : Tz := { name := "Somewhere", offset := 3600 }

def clUtc : Client :=
  { timezone := utcTz, name := "cal-a", color := "#112233", loadLocation := fun _ => none }

def gZero : GoTime := { unix := 0, loc := utcTz }

/-- A timed event component with UID and DTSTART only. -/
def comp0 : VEvent :=
  { uid := some { value := "ev1".data, params := [] }
    summary := some { value := "Standup".data, params := [] }
    description := none, location := none
    dtstart := some { value := "20260105T090000".data, params := [] }
    dtend := none, duration := none, rrule := none, exdate := none }

/-- An all-day event component (VALUE=DATE) with UID and DTSTART only. -/
def compAllDay : VEvent :=
  { uid := some { value := "ev2".data, params := [] }
    summary := none, description := none, location := none
    dtstart := some { value := "20260105".data, params := [("VALUE", "DATE")] }
    dtend := none, duration := none, rrule := none, exdate := none }

/-- A recurring event component (RRULE present, no EXDATE). -/
def compR : VEvent :=
  { uid := some { value := "u".data, params := [] }
    summary := none, description := none, location := none
    dtstart := some { value := "19700101T000000".data, params := [] }
    dtend := none, duration := none
    rrule := some { value := "FREQ=DAILY".data, params := [] }
    exdate := none }

def sampleEvent : Event :=
  { uid := "e1".data, summary := "Standup".data, description := [], location := []
    start := { unix := 0, loc := utcTz }, endT := { unix := 3600, loc := utcTz }
    allDay := false, calendarName := "cal-a", calendarColor := "#112233", isRecurring := false }

/-! ## Claims -/

lemma unesc_pair (c : Char) (rest : List Char) (h : c = ',' ∨ c = ';' ∨ c = '\\') :
    unescapeICalText ('\\' :: c :: rest) = c :: unescapeICalText rest := by
  rcases h with h | h | h <;> subst h <;> simp [unescapeICalText]

lemma unesc_newline (c : Char) (rest : List Char) (h : c = 'n' ∨ c = 'N') :
    unescapeICalText ('\\' :: c :: rest) = '\n' :: unescapeICalText rest := by
  rcases h with h | h <;> subst h <;> simp [unescapeICalText]

lemma unesc_other (c : Char) (rest : List Char) (h1 : ¬(c = ',' ∨ c = ';' ∨ c = '\\'))
    (h2 : ¬(c = 'n' ∨ c = 'N')) :
    unescapeICalText ('\\' :: c :: rest) = '\\' :: unescapeICalText (c :: rest) := by
  simp only [not_or] at h1 h2
  simp [unescapeICalText, h1.1, h1.2.1, h1.2.2, h2.1, h2.2]

lemma unesc_plain (c : Char) (rest : List Char) (h : c ≠ '\\') :
    unescapeICalText (c :: rest) = c :: unescapeICalText rest := by
  rw [unescapeICalText.eq_def]
  split
  · rename_i heq
    exact absurd heq (by simp)
  · rename_i heq
    injection heq with h1 _
    exact absurd h1 h
  · rename_i heq
    injection heq with h1 h2
    rw [h1, h2]

lemma unesc_trailing (s : List Char) (hlast : s.getLast? ≠ some '\\') :
    unescapeICalText (s ++ ['\\']) = unescapeICalText s ++ ['\\'] := by
  induction s using unescapeICalText.induct with
  | case1 => rfl
  | case2 next rest h ih =>
    have hr : rest.getLast? ≠ some '\\' := by
      cases rest with
      | nil => simp
      | cons a as => simpa using hlast
    have step : ('\\' :: next :: rest) ++ ['\\'] = '\\' :: next :: (rest ++ ['\\']) := by simp
    rw [step, unesc_pair next _ h, unesc_pair next rest h, ih hr]
    simp
  | case3 next rest h1 h2 ih =>
    have hr : rest.getLast? ≠ some '\\' := by
      cases rest with
      | nil => simp
      | cons a as => simpa using hlast
    have step : ('\\' :: next :: rest) ++ ['\\'] = '\\' :: next :: (rest ++ ['\\']) := by simp
    rw [step, unesc_newline next _ h2, unesc_newline next rest h2, ih hr]
    simp
  | case4 next rest h1 h2 ih =>
    have hr : (next :: rest).getLast? ≠ some '\\' := by
      cases rest with
      | nil =>
        simp only [List.getLast?_singleton] at hlast ⊢
        simpa using hlast
      | cons a as => simpa using hlast
    have step : ('\\' :: next :: rest) ++ ['\\'] = '\\' :: next :: (rest ++ ['\\']) := by simp
    rw [step, unesc_other next _ h1 h2, unesc_other next rest h1 h2]
    have step2 : next :: (rest ++ ['\\']) = (next :: rest) ++ ['\\'] := by simp
    rw [step2, ih hr]
    simp
  | case5 c rest hguard ih =>
    cases rest with
    | nil =>
      have hc : c ≠ '\\' := by simpa using hlast
      rw [show ([c] : List Char) ++ ['\\'] = c :: ['\\'] from rfl, unesc_plain c _ hc,
        unesc_plain c [] hc]
      rfl
    | cons a as =>
      have hc : c ≠ '\\' := fun hcc => hguard a as hcc rfl
      have hr : (a :: as).getLast? ≠ some '\\' := by simpa using hlast
      rw [show (c :: a :: as) ++ ['\\'] = c :: ((a :: as) ++ ['\\']) from rfl,
        unesc_plain c _ hc, unesc_plain c _ hc, ih hr]
      rfl

/-- C8: text decoding is a total function computed by a single left-to-right
scan: a backslash followed by comma, semicolon or backslash emits that
literal character consuming both; a backslash followed by n or N emits a
newline consuming both; a backslash followed by any other character, or at
the end of the string, emits a literal backslash without consuming the
following character; in particular a string ending in a lone backslash
decodes without failure, emitting the backslash literally.  (Totality is the
fact that unescapeICalText is a Lean function defined on all of List Char.) -/
theorem claimC8 :
    (unescapeICalText [] = []) ∧
    (unescapeICalText ['\\'] = ['\\']) ∧
    (∀ c rest, (c = ',' ∨ c = ';' ∨ c = '\\') →
      unescapeICalText ('\\' :: c :: rest) = c :: unescapeICalText rest) ∧
    (∀ c rest, (c = 'n' ∨ c = 'N') →
      unescapeICalText ('\\' :: c :: rest) = '\n' :: unescapeICalText rest) ∧
    (∀ c rest, ¬(c = ',' ∨ c = ';' ∨ c = '\\') → ¬(c = 'n' ∨ c = 'N') →
      unescapeICalText ('\\' :: c :: rest) = '\\' :: unescapeICalText (c :: rest)) ∧
    (∀ c rest, c ≠ '\\' → unescapeICalText (c :: rest) = c :: unescapeICalText rest) ∧
    (∀ s, s.getLast? ≠ some '\\' →
      unescapeICalText (s ++ ['\\']) = unescapeICalText s ++ ['\\']) :=
  ⟨rfl, rfl, unesc_pair, unesc_newline, unesc_other, unesc_plain, unesc_trailing⟩

/-- Witness for C8: the theorem applied at concrete inputs, discharging each
kind of hypothesis. -/
theorem claimC8_witness :
    unescapeICalText ('\\' :: ',' :: "a".data) = ',' :: unescapeICalText "a".data ∧
    unescapeICalText ('\\' :: 'N' :: "a".data) = '\n' :: unescapeICalText "a".data ∧
    unescapeICalText ('\\' :: 'x' :: "a".data) = '\\' :: unescapeICalText ('x' :: "a".data) ∧
    unescapeICalText ('x' :: "a".data) = 'x' :: unescapeICalText "a".data ∧
    unescapeICalText ("ab".data ++ ['\\']) = unescapeICalText "ab".data ++ ['\\'] :=
  ⟨claimC8.2.2.1 ',' "a".data (by decide), claimC8.2.2.2.1 'N' "a".data (by decide),
    claimC8.2.2.2.2.1 'x' "a".data (by decide) (by decide),
    claimC8.2.2.2.2.2.1 'x' "a".data (by decide),
    claimC8.2.2.2.2.2.2 "ab".data (by decide)⟩

/-- C1: the claim (and the code's own comment, handler.go line 136) says an
error reaches the caller only when ALL sources fail.  The code instead tests
that errors exist AND the merged event list is empty, so with two sources
where one fails and the survivor returns zero occurrences (first conjunct:
the failing input) the caller still receives the aggregate error, although
only K=1 of N=2 sources failed.  The second and third conjuncts show the
neighbouring behaviours: a surviving source with at least one occurrence
suppresses the error, and a total failure yields the aggregate error with no
results, as the claim says. -/
theorem claimC1_bug :
    getEventsAggregate [Except.error "calendar A: unreachable", Except.ok []] =
      Except.error "calendar A: unreachable" ∧
    getEventsAggregate [Except.error "calendar A: unreachable", Except.ok [sampleEvent]] =
      Except.ok [sampleEvent] ∧
    getEventsAggregate [Except.error "calendar A: unreachable",
        Except.error "calendar B: unreachable"] =
      Except.error "calendar A: unreachable; calendar B: unreachable" := by
  refine ⟨rfl, ?_, rfl⟩
  rfl

/-! Lemmas on the string comparison. -/

lemma strLt_irrefl (s : List Char) : strLt s s = false := by
  induction s with
  | nil => rfl
  | cons c cs ih => simp [strLt, ih]

lemma strLt_trans (a b c : List Char) (h1 : strLt a b = true) (h2 : strLt b c = true) :
    strLt a c = true := by
  induction a generalizing b c with
  | nil =>
    cases b with
    | nil => simp [strLt] at h1
    | cons b0 bs =>
      cases c with
      | nil => simp [strLt] at h2
      | cons c0 cs => simp [strLt]
  | cons a0 as ih =>
    cases b with
    | nil => simp [strLt] at h1
    | cons b0 bs =>
      cases c with
      | nil => simp [strLt] at h2
      | cons c0 cs =>
        rcases lt_trichotomy a0 b0 with hab | hab | hab
        · rcases lt_trichotomy b0 c0 with hbc | hbc | hbc
          · simp [strLt, lt_trans hab hbc]
          · subst hbc
            simp [strLt, hab]
          · simp [strLt, hbc, asymm hbc] at h2
        · subst hab
          simp only [strLt, lt_irrefl, if_false] at h1
          rcases lt_trichotomy a0 c0 with hbc | hbc | hbc
          · simp [strLt, hbc]
          · subst hbc
            simp only [strLt, lt_irrefl, if_false] at h2 ⊢
            exact ih bs cs h1 h2
          · simp [strLt, hbc, asymm hbc] at h2
        · simp [strLt, hab, asymm hab] at h1

lemma strLt_eq_of_incomp (a b : List Char) (h1 : strLt a b = false) (h2 : strLt b a = false) :
    a = b := by
  induction a generalizing b with
  | nil =>
    cases b with
    | nil => rfl
    | cons b0 bs => simp [strLt] at h1
  | cons a0 as ih =>
    cases b with
    | nil => simp [strLt] at h2
    | cons b0 bs =>
      rcases lt_trichotomy a0 b0 with hab | hab | hab
      · simp [strLt, hab] at h1
      · subst hab
        simp only [strLt, lt_irrefl, if_false] at h1 h2
        rw [ih bs h1 h2]
      · simp [strLt, hab] at h2

/-! Lemmas on the event comparator. -/

lemma eventLess_irrefl (a : Event) : eventLess a a = false := by
  simp [eventLess, strLt_irrefl]

/-- Characterization of the comparator: a comes first when it is all-day and
b is not, or (same category) its start is earlier, or (same start) its
summary is smaller. -/
lemma eventLess_eq_true_iff (a b : Event) :
    eventLess a b = true ↔
      (a.allDay = true ∧ b.allDay = false) ∨
      (a.allDay = b.allDay ∧ a.start.unix < b.start.unix) ∨
      (a.allDay = b.allDay ∧ a.start.unix = b.start.unix ∧
        strLt a.summary b.summary = true) := by
  unfold eventLess
  cases ha : a.allDay <;> cases hb : b.allDay <;>
    by_cases e : a.start.unix = b.start.unix <;>
    simp [ha, hb, e]

lemma eventLess_trans (a b c : Event) (h1 : eventLess a b = true)
    (h2 : eventLess b c = true) : eventLess a c = true := by
  rw [eventLess_eq_true_iff] at h1 h2 ⊢
  rcases h1 with ⟨ha1, hb1⟩ | ⟨hab, hlt1⟩ | ⟨hab, heq1, hs1⟩ <;>
    rcases h2 with ⟨hb2, hc2⟩ | ⟨hbc, h2'⟩ | ⟨hbc, heq2, hs2⟩
  · rw [hb1] at hb2
    exact absurd hb2 (by simp)
  · left
    exact ⟨ha1, by rw [← hbc]; exact hb1⟩
  · left
    exact ⟨ha1, by rw [← hbc]; exact hb1⟩
  · left
    exact ⟨by rw [hab]; exact hb2, hc2⟩
  · right; left
    exact ⟨hab.trans hbc, by omega⟩
  · right; left
    exact ⟨hab.trans hbc, by omega⟩
  · left
    exact ⟨by rw [hab]; exact hb2, hc2⟩
  · right; left
    exact ⟨hab.trans hbc, by omega⟩
  · right; right
    exact ⟨hab.trans hbc, heq1.trans heq2, strLt_trans _ _ _ hs1 hs2⟩

lemma eventLess_incomp (a b : Event) (h1 : eventLess a b = false)
    (h2 : eventLess b a = false) :
    a.allDay = b.allDay ∧ a.start.unix = b.start.unix ∧ a.summary = b.summary := by
  have H1 : ¬ (eventLess a b = true) := by simp [h1]
  have H2 : ¬ (eventLess b a = true) := by simp [h2]
  rw [eventLess_eq_true_iff] at H1 H2
  push_neg at H1 H2
  have hAD : a.allDay = b.allDay := by
    cases ha : a.allDay <;> cases hb : b.allDay
    · rfl
    · exact absurd ha (by simpa [hb] using H2.1)
    · exact absurd hb (by simpa [ha] using H1.1)
    · rfl
  have hU : a.start.unix = b.start.unix := by
    have n1 := H1.2.1 hAD
    have n2 := H2.2.1 hAD.symm
    omega
  refine ⟨hAD, hU, ?_⟩
  have n1 := H1.2.2 hAD hU
  have n2 := H2.2.2 hAD.symm hU.symm
  exact strLt_eq_of_incomp _ _ (by simpa using n1) (by simpa using n2)

lemma eventLess_asymm (a b : Event) (h : eventLess a b = true) : eventLess b a = false := by
  by_contra hba
  have hba' : eventLess b a = true := by
    cases hh : eventLess b a
    · exact absurd hh hba
    · rfl
  have := eventLess_trans a b a h hba'
  rw [eventLess_irrefl] at this
  exact absurd this (by simp)

/-- eventLess reads only allDay, the start instant and the summary, so it is
invariant under replacing the right argument by a field-equal event. -/
lemma eventLess_congr_right (c a b : Event) (h1 : a.allDay = b.allDay)
    (h2 : a.start.unix = b.start.unix) (h3 : a.summary = b.summary) :
    eventLess c a = eventLess c b := by
  unfold eventLess
  rw [← h1, ← h2, ← h3]

lemma eventLess_congr_left (c a b : Event) (h1 : a.allDay = b.allDay)
    (h2 : a.start.unix = b.start.unix) (h3 : a.summary = b.summary) :
    eventLess a c = eventLess b c := by
  unfold eventLess
  rw [← h1, ← h2, ← h3]

instance : IsTrans Event eventLe where
  trans := by
    intro a b c h1 h2
    unfold eventLe at h1 h2 ⊢
    by_contra hca
    have hca' : eventLess c a = true := by
      cases hh : eventLess c a
      · exact absurd hh hca
      · rfl
    by_cases hab : eventLess a b = true
    · have := eventLess_trans c a b hca' hab
      rw [h2] at this
      exact absurd this (by simp)
    · have hab' : eventLess a b = false := by
        cases hh : eventLess a b
        · rfl
        · exact absurd hh hab
      obtain ⟨f1, f2, f3⟩ := eventLess_incomp a b hab' h1
      rw [eventLess_congr_right c a b f1 f2 f3] at hca'
      rw [h2] at hca'
      exact absurd hca' (by simp)

instance : IsTotal Event eventLe where
  total := by
    intro a b
    unfold eventLe
    by_cases h : eventLess b a = true
    · right
      exact eventLess_asymm b a h
    · left
      cases hh : eventLess b a
      · rfl
      · exact absurd hh h

/-- C7: the occurrence comparison (all-day before timed, then ascending start
instant, then ascending summary text) is a strict weak ordering over events:
irreflexive, transitive, with transitive incomparability; and sorting with it
is idempotent. -/
theorem claimC7 :
    (∀ a : Event, eventLess a a = false) ∧
    (∀ a b c : Event, eventLess a b = true → eventLess b c = true → eventLess a c = true) ∧
    (∀ a b c : Event, eventLess a b = false → eventLess b a = false →
      eventLess b c = false → eventLess c b = false →
      eventLess a c = false ∧ eventLess c a = false) ∧
    (∀ l : List Event, sortEvents (sortEvents l) = sortEvents l) := by
  refine ⟨eventLess_irrefl, eventLess_trans, ?_, ?_⟩
  · intro a b c h1 h2 h3 h4
    obtain ⟨x1, x2, x3⟩ := eventLess_incomp a b h1 h2
    constructor
    · rw [eventLess_congr_left c a b x1 x2 x3]
      exact h3
    · rw [eventLess_congr_right c a b x1 x2 x3]
      exact h4
  · intro l
    unfold sortEvents
    exact List.Sorted.insertionSort_eq (List.sorted_insertionSort eventLe l)

/-- Witness for C7: transitivity, transitive incomparability and idempotence
applied at concrete events. -/
theorem claimC7_witness :
    eventLess
        { sampleEvent with allDay := true }
        { sampleEvent with start := { unix := 9, loc := utcTz } } = true ∧
    (eventLess sampleEvent { sampleEvent with description := "x".data } = false ∧
      eventLess { sampleEvent with description := "x".data } sampleEvent = false) ∧
    sortEvents (sortEvents [sampleEvent, { sampleEvent with allDay := true }]) =
      sortEvents [sampleEvent, { sampleEvent with allDay := true }] := by
  refine ⟨?_, ?_, ?_⟩
  · exact claimC7.2.1 { sampleEvent with allDay := true } sampleEvent
      { sampleEvent with start := { unix := 9, loc := utcTz } } (by decide) (by decide)
  · exact claimC7.2.2.1 sampleEvent { sampleEvent with description := "x".data }
      sampleEvent (by decide) (by decide) (by decide) (by decide)
  · exact claimC7.2.2.2 [sampleEvent, { sampleEvent with allDay := true }]

/-! C4: the timezone-normalization invariant. -/

lemma parseDateTime_loc (tz : Tz) (ll : String → Option Tz) (prop : ICalProp)
    (t : GoTime) (b : Bool) (h : parseDateTime tz ll prop = some (t, b)) : t.loc = tz := by
  unfold parseDateTime at h
  by_cases hv : getParam prop "VALUE" = "DATE"
  · rw [if_pos hv] at h
    rcases Option.map_eq_some'.mp h with ⟨u, hu, heq⟩
    unfold goParseInLocDate at h
    rcases Option.map_eq_some'.mp hu with ⟨p, _, hp⟩
    have ht : u = t := congrArg Prod.fst heq
    rw [← ht, ← hp]
    rfl
  · rw [if_neg hv] at h
    rcases Option.map_eq_some'.mp h with ⟨u, _, heq⟩
    have ht : u.inTz tz = t := congrArg Prod.fst heq
    rw [← ht]
    rfl

lemma expandRecurringEvent_loc (c : Client) (comp : VEvent)
    (uid summary description location : List Char) (startTime endTime : GoTime)
    (allDay : Bool) (qs qe : GoTime) (ok : Bool) (cands : List GoTime) (evs : List Event)
    (h : expandRecurringEvent c comp uid summary description location startTime endTime
      allDay qs qe ok cands = some evs) :
    ∀ ev ∈ evs, ev.start.loc = c.timezone ∧ ev.endT.loc = c.timezone := by
  unfold expandRecurringEvent at h
  cases hr : comp.rrule with
  | none => rw [hr] at h; exact absurd h (by simp)
  | some r =>
    rw [hr] at h
    cases ok with
    | false => simp at h
    | true =>
      simp only [Bool.true_eq_false, if_false, Option.some.injEq] at h
      intro ev hev
      rw [← h] at hev
      rcases List.mem_filterMap.mp hev with ⟨occ, _, hocc⟩
      by_cases hcut :
          ((occ.inTz c.timezone).add (endTime.unix - startTime.unix)).unix < qs.unix ∨
            qe.unix < (occ.inTz c.timezone).unix
      · rw [if_pos hcut] at hocc
        exact absurd hocc (by simp)
      · rw [if_neg hcut] at hocc
        have := Option.some.inj hocc
        rw [← this]
        exact ⟨rfl, rfl⟩

lemma resolveEnd_loc (c : Client) (comp : VEvent) (startTime : GoTime) (allDay : Bool)
    (endTime : GoTime) (hstart : startTime.loc = c.timezone)
    (hE : resolveEnd c comp startTime allDay = some endTime) : endTime.loc = c.timezone := by
  unfold resolveEnd at hE
  cases hde : comp.dtend with
  | some dtend =>
    rw [hde] at hE
    rcases Option.map_eq_some'.mp hE with ⟨q, hq, hq2⟩
    obtain ⟨et, b2⟩ := q
    rw [← hq2]
    exact parseDateTime_loc _ _ _ _ _ hq
  | none =>
    rw [hde] at hE
    cases hdu : comp.duration with
    | some dprop =>
      rw [hdu] at hE
      rcases Option.map_eq_some'.mp hE with ⟨dur, _, hq2⟩
      rw [← hq2]
      exact hstart
    | none =>
      rw [hdu] at hE
      have := Option.some.inj hE
      rw [← this]
      cases allDay <;> simpa using hstart

lemma parseEvent_loc (c : Client) (comp : VEvent) (qs qe : GoTime) (ok : Bool)
    (cands : List GoTime) (evs : List Event)
    (h : parseEvent c comp qs qe ok cands = some evs) :
    ∀ ev ∈ evs, ev.start.loc = c.timezone ∧ ev.endT.loc = c.timezone := by
  unfold parseEvent at h
  cases hu : comp.uid with
  | none =>
    simp only [hu] at h
    exact absurd h (by simp)
  | some uid =>
    simp only [hu] at h
    cases hds : comp.dtstart with
    | none =>
      simp only [hds] at h
      exact absurd h (by simp)
    | some dtstart =>
      simp only [hds] at h
      cases hpd : parseDateTime c.timezone c.loadLocation dtstart with
      | none =>
        simp only [hpd] at h
        exact absurd h (by simp)
      | some p =>
        obtain ⟨startTime, allDay⟩ := p
        simp only [hpd] at h
        have hstart : startTime.loc = c.timezone :=
          parseDateTime_loc _ _ _ _ _ hpd
        cases hE : resolveEnd c comp startTime allDay with
        | none =>
          simp only [hE] at h
          exact absurd h (by simp)
        | some endTime =>
          simp only [hE] at h
          have hendT : endTime.loc = c.timezone :=
            resolveEnd_loc c comp startTime allDay endTime hstart hE
          cases hrr : comp.rrule with
          | some r =>
            simp only [hrr] at h
            exact expandRecurringEvent_loc c comp uid.value _ _ _ startTime endTime
              allDay qs qe ok cands evs h
          | none =>
            simp only [hrr, Option.some.injEq] at h
            intro ev hev
            rw [← h] at hev
            rcases List.mem_singleton.mp hev with rfl
            exact ⟨hstart, hendT⟩

/-- C4: every occurrence produced by any path (single-event building,
date-time interpretation, or recurrence expansion) carries start and end
instants represented in the single configured display timezone. -/
theorem claimC4 :
    (∀ (tz : Tz) (ll : String → Option Tz) (prop : ICalProp) (t : GoTime) (b : Bool),
      parseDateTime tz ll prop = some (t, b) → t.loc = tz) ∧
    (∀ (c : Client) (comp : VEvent) (qs qe : GoTime) (ok : Bool) (cands : List GoTime)
      (evs : List Event), parseEvent c comp qs qe ok cands = some evs →
      ∀ ev ∈ evs, ev.start.loc = c.timezone ∧ ev.endT.loc = c.timezone) :=
  ⟨parseDateTime_loc, parseEvent_loc⟩

/-- Witness for C4: the theorem applied to a concrete parsed event. -/
theorem claimC4_witness :
    ∃ evs, parseEvent clUtc comp0 gZero gZero true [] = some evs ∧
      ∀ ev ∈ evs, ev.start.loc = clUtc.timezone ∧ ev.endT.loc = clUtc.timezone :=
  ⟨_, rfl, claimC4.2 clUtc comp0 gZero gZero true [] _ rfl⟩

/-! C3: end-time resolution priority for single events. -/

/-- The occurrence record parseEvent builds for a non-recurring component
(client.go lines 231-244). -/
def buildSingleEvent (c : Client) (comp : VEvent) (u : ICalProp) (st et : GoTime)
    (ad : Bool) : Event :=
  { uid := u.value
    summary := match comp.summary with
      | some p => unescapeICalText p.value
      | none => []
    description := match comp.description with
      | some p => unescapeICalText p.value
      | none => []
    location := match comp.location with
      | some p => unescapeICalText p.value
      | none => []
    start := st, endT := et, allDay := ad
    calendarName := c.name, calendarColor := c.color, isRecurring := false }

/-- C3: for every non-recurring event with a UID and a parsable start, the
end instant is resolved in priority order: an explicit end marker if present;
otherwise start plus a parsed duration property if present; otherwise, for an
all-day event, start plus one calendar day (24 hours; in the fixed-offset
timezone model these coincide); otherwise end = start, the zero-length timed
occurrence being a valid, non-error result. -/
theorem claimC3 :
    ∀ (c : Client) (comp : VEvent) (qs qe : GoTime) (ok : Bool) (cands : List GoTime)
      (u ps : ICalProp) (st : GoTime) (ad : Bool),
      comp.rrule = none → comp.uid = some u → comp.dtstart = some ps →
      parseDateTime c.timezone c.loadLocation ps = some (st, ad) →
      ((∀ pe et b2, comp.dtend = some pe →
          parseDateTime c.timezone c.loadLocation pe = some (et, b2) →
          parseEvent c comp qs qe ok cands = some [buildSingleEvent c comp u st et ad]) ∧
       (∀ dp dur, comp.dtend = none → comp.duration = some dp →
          parseDuration dp.value = some dur →
          parseEvent c comp qs qe ok cands =
            some [buildSingleEvent c comp u st (st.add dur) ad]) ∧
       (comp.dtend = none → comp.duration = none → ad = true →
          parseEvent c comp qs qe ok cands =
            some [buildSingleEvent c comp u st (st.add 86400) ad]) ∧
       (comp.dtend = none → comp.duration = none → ad = false →
          parseEvent c comp qs qe ok cands = some [buildSingleEvent c comp u st st ad])) := by
  intro c comp qs qe ok cands u ps st ad hrr hu hds hpd
  refine ⟨?_, ?_, ?_, ?_⟩
  · intro pe et b2 hde hpe
    unfold parseEvent resolveEnd buildSingleEvent
    simp only [hu, hds, hpd, hde, hpe, hrr, Option.map_some']
  · intro dp dur hde hdu hdur
    unfold parseEvent resolveEnd buildSingleEvent
    simp only [hu, hds, hpd, hde, hdu, hdur, hrr, Option.map_some']
  · intro hde hdu had
    subst had
    unfold parseEvent resolveEnd buildSingleEvent
    simp only [hu, hds, hpd, hde, hdu, hrr, if_true]
  · intro hde hdu had
    subst had
    unfold parseEvent resolveEnd buildSingleEvent
    simp only [hu, hds, hpd, hde, hdu, hrr, if_false, Bool.false_eq_true]

/-- Witness for C3: the no-end branches applied at concrete components: an
all-day component gets one whole day, a timed one the degenerate zero-length
occurrence, successfully. -/
theorem claimC3_witness :
    parseEvent clUtc compAllDay gZero gZero true [] =
      some [buildSingleEvent clUtc compAllDay { value := "ev2".data, params := [] }
        (mkTimeInLoc 2026 1 5 0 0 0 utcTz) ((mkTimeInLoc 2026 1 5 0 0 0 utcTz).add 86400) true] ∧
    parseEvent clUtc comp0 gZero gZero true [] =
      some [buildSingleEvent clUtc comp0 { value := "ev1".data, params := [] }
        (mkTimeInLoc 2026 1 5 9 0 0 utcTz) (mkTimeInLoc 2026 1 5 9 0 0 utcTz) false] :=
  ⟨(claimC3 clUtc compAllDay gZero gZero true [] _ _ _ true rfl rfl rfl (by decide)).2.2.1
      rfl rfl rfl,
    (claimC3 clUtc comp0 gZero gZero true [] _ _ _ false rfl rfl rfl (by decide)).2.2.2
      rfl rfl rfl⟩

/-! C2: the recurrence-expansion window filter. -/

/-- C2 counterexample: a candidate whose occurrence starts exactly at
queryEnd is retained, although its half-open interval [1000, 1100) does not
intersect the query window [0, 1000).  The code discards a candidate only
when occEnd is strictly before queryStart or occStart strictly after
queryEnd, so boundary-touching candidates survive, refuting the claim that
exactly the candidates whose interval intersects the half-open window are
returned. -/
theorem claimC2_counterexample :
    expandRecurringEvent clUtc compR "u".data "s".data [] []
        { unix := 0, loc := utcTz } { unix := 100, loc := utcTz } false
        { unix := 0, loc := utcTz } { unix := 1000, loc := utcTz } true
        [{ unix := 1000, loc := utcTz }] =
      some [mkOccurrence clUtc "u".data "s".data [] [] false 100
        { unix := 1000, loc := utcTz }] ∧
    (mkOccurrence clUtc "u".data "s".data [] [] false 100
        { unix := 1000, loc := utcTz }).start.unix = 1000 := by
  exact ⟨by decide, by decide⟩

/-- C2 amended: every produced occurrence has end = start + (original series
end - original series start); and a candidate (within the 1000-candidate
enumeration bound, after exclusion-date removal) is returned exactly when its
CLOSED interval [start, end] meets the CLOSED window [queryStart, queryEnd]
(expressed by a shared point t), i.e. candidates that merely touch the
boundary (end = queryStart, or start = queryEnd) are retained even though the
half-open intervals do not intersect. -/
theorem claimC2_amended :
    ∀ (c : Client) (comp : VEvent) (uid summary description location : List Char)
      (startTime endTime qs qe : GoTime) (allDay : Bool) (r : ICalProp)
      (cands : List GoTime),
      comp.rrule = some r →
      startTime.unix ≤ endTime.unix → qs.unix ≤ qe.unix →
      ∃ evs, expandRecurringEvent c comp uid summary description location startTime endTime
          allDay qs qe true cands = some evs ∧
        (∀ ev ∈ evs, ev.endT.unix - ev.start.unix = endTime.unix - startTime.unix) ∧
        (∀ ev, ev ∈ evs ↔
          ∃ occ ∈ (rsetBetween cands (parseExdates c.timezone comp.exdate)).take 1000,
            ev = mkOccurrence c uid summary description location allDay
              (endTime.unix - startTime.unix) (occ.inTz c.timezone) ∧
            ∃ t : Int, ev.start.unix ≤ t ∧ t ≤ ev.endT.unix ∧
              qs.unix ≤ t ∧ t ≤ qe.unix) := by
  intro c comp uid summary description location startTime endTime qs qe allDay r cands
    hrr hd hw
  unfold expandRecurringEvent
  simp only [hrr, Bool.true_eq_false, if_false]
  refine ⟨_, rfl, ?_, ?_⟩
  · intro ev hev
    rcases List.mem_filterMap.mp hev with ⟨occ, _, hocc⟩
    by_cases hcut :
        ((occ.inTz c.timezone).add (endTime.unix - startTime.unix)).unix < qs.unix ∨
          qe.unix < (occ.inTz c.timezone).unix
    · rw [if_pos hcut] at hocc
      exact absurd hocc (by simp)
    · rw [if_neg hcut] at hocc
      rw [← Option.some.inj hocc]
      simp only [mkOccurrence, GoTime.add, GoTime.inTz]
      omega
  · intro ev
    constructor
    · intro hev
      rcases List.mem_filterMap.mp hev with ⟨occ, hmem, hocc⟩
      by_cases hcut :
          ((occ.inTz c.timezone).add (endTime.unix - startTime.unix)).unix < qs.unix ∨
            qe.unix < (occ.inTz c.timezone).unix
      · rw [if_pos hcut] at hocc
        exact absurd hocc (by simp)
      · rw [if_neg hcut] at hocc
        push_neg at hcut
        refine ⟨occ, hmem, (Option.some.inj hocc).symm, ?_⟩
        rw [← Option.some.inj hocc]
        simp only [mkOccurrence, GoTime.add, GoTime.inTz] at hcut ⊢
        refine ⟨max ((occ.inTz c.timezone).unix) qs.unix, le_max_left _ _, ?_, le_max_right _ _, ?_⟩
        · exact max_le (by simpa [GoTime.inTz] using hd) (by simpa [GoTime.inTz] using hcut.1)
        · exact max_le (by simpa [GoTime.inTz] using hcut.2) hw
    · rintro ⟨occ, hmem, heq, t, ht1, ht2, ht3, ht4⟩
      refine List.mem_filterMap.mpr ⟨occ, hmem, ?_⟩
      have hcut : ¬ (((occ.inTz c.timezone).add (endTime.unix - startTime.unix)).unix < qs.unix ∨
          qe.unix < (occ.inTz c.timezone).unix) := by
        subst heq
        simp only [mkOccurrence, GoTime.add, GoTime.inTz] at ht1 ht2 ht3 ht4 ⊢
        omega
      rw [if_neg hcut, heq]

/-- Witness for C2 amended: the theorem applied at a concrete series and
window where one candidate is retained and one discarded. -/
theorem claimC2_amended_witness :
    ∃ evs, expandRecurringEvent clUtc compR "u".data "s".data [] []
        { unix := 0, loc := utcTz } { unix := 100, loc := utcTz } false
        { unix := 0, loc := utcTz } { unix := 1000, loc := utcTz } true
        [{ unix := 500, loc := utcTz }, { unix := 5000, loc := utcTz }] = some evs ∧
      (∀ ev ∈ evs, ev.endT.unix - ev.start.unix = 100) ∧
      (∀ ev, ev ∈ evs ↔
        ∃ occ ∈ (rsetBetween
            [{ unix := 500, loc := utcTz }, { unix := 5000, loc := utcTz }]
            (parseExdates clUtc.timezone compR.exdate)).take 1000,
          ev = mkOccurrence clUtc "u".data "s".data [] [] false 100 (occ.inTz clUtc.timezone) ∧
          ∃ t : Int, ev.start.unix ≤ t ∧ t ≤ ev.endT.unix ∧ 0 ≤ t ∧ t ≤ 1000) :=
  claimC2_amended clUtc compR "u".data "s".data [] []
    { unix := 0, loc := utcTz } { unix := 100, loc := utcTz }
    { unix := 0, loc := utcTz } { unix := 1000, loc := utcTz } false
    { value := "FREQ=DAILY".data, params := [] }
    [{ unix := 500, loc := utcTz }, { unix := 5000, loc := utcTz }]
    rfl (by decide) (by decide)

/-! C9: the month day-bucket endpoint. -/

lemma GoTime.add_zero (s : GoTime) : s.add 0 = s := by
  simp [GoTime.add]

lemma GoTime.add_add (s : GoTime) (a b : Int) : (s.add a).add b = s.add (a + b) := by
  simp [GoTime.add, Int.add_assoc]

/-- The walk condition at step k: the k-th 24-hour step from the start is
still before the event end and still inside the requested month number. -/
def stepOk (s endT : GoTime) (m : Nat) (k : Nat) : Prop :=
  (s.add (86400 * k)).unix < endT.unix ∧ (s.add (86400 * k)).month = m

lemma stepOk_shift (s endT : GoTime) (m : Nat) (j : Nat) :
    stepOk (s.add 86400) endT m j ↔ stepOk s endT m (j + 1) := by
  unfold stepOk
  rw [GoTime.add_add]
  have : (86400 : Int) + 86400 * (j : Int) = 86400 * ((j : Nat) + 1 : Nat) := by
    push_cast
    ring
  rw [this]

lemma monthWalk_mem (fuel : Nat) (s endT : GoTime) (m : Nat) (d0 : Nat) :
    d0 ∈ monthWalk fuel s endT m ↔
      ∃ k, k < fuel ∧ (∀ j, j ≤ k → stepOk s endT m j) ∧
        d0 = (s.add (86400 * k)).day := by
  induction fuel generalizing s with
  | zero => simp [monthWalk]
  | succ fuel ih =>
    by_cases h0 : s.unix < endT.unix ∧ s.month = m
    · rw [monthWalk, if_pos h0]
      constructor
      · intro hmem
        rcases List.mem_cons.mp hmem with hd | htail
        · refine ⟨0, Nat.succ_pos _, ?_, ?_⟩
          · intro j hj
            interval_cases j
            unfold stepOk
            simpa [GoTime.add_zero] using h0
          · simpa [GoTime.add_zero] using hd
        · rcases (ih (s.add 86400)).mp htail with ⟨k, hk, hall, hd⟩
          refine ⟨k + 1, by omega, ?_, ?_⟩
          · intro j hj
            cases j with
            | zero =>
              unfold stepOk
              simpa [GoTime.add_zero] using h0
            | succ j' =>
              rw [← stepOk_shift]
              exact hall j' (by omega)
          · rw [hd, GoTime.add_add,
              show (86400 : Int) + 86400 * (k : Int) = 86400 * (((k + 1 : Nat)) : Int) by
                push_cast; ring]
      · rintro ⟨k, hk, hall, hd⟩
        cases k with
        | zero =>
          exact List.mem_cons.mpr (Or.inl (by simpa [GoTime.add_zero] using hd))
        | succ k' =>
          refine List.mem_cons.mpr (Or.inr ((ih (s.add 86400)).mpr ⟨k', by omega, ?_, ?_⟩))
          · intro j hj
            rw [stepOk_shift]
            exact hall (j + 1) (by omega)
          · rw [hd, GoTime.add_add,
              show (86400 : Int) + 86400 * (k' : Int) = 86400 * (((k' + 1 : Nat)) : Int) by
                push_cast; ring]
    · rw [monthWalk, if_neg h0]
      simp only [List.not_mem_nil, false_iff]
      rintro ⟨k, hk, hall, hd⟩
      have := hall 0 (Nat.zero_le _)
      unfold stepOk at this
      rw [show (86400 : Int) * ((0 : Nat) : Int) = 0 by simp, GoTime.add_zero] at this
      exact h0 this

lemma eventDays_mem (tz : Tz) (m : Nat) (ev : Event) (d0 : Nat) :
    d0 ∈ eventDays tz m ev ↔
      d0 = (ev.start.inTz tz).day ∨
      (ev.allDay = false ∧ ∃ k : Nat,
        (∀ j : Nat, j ≤ k → stepOk (ev.start.inTz tz) (ev.endT.inTz tz) m j) ∧
        d0 = ((ev.start.inTz tz).add (86400 * k)).day) := by
  unfold eventDays
  rw [List.mem_cons]
  cases had : ev.allDay with
  | true => simp
  | false =>
    simp only [Bool.false_eq_true, if_false, monthWalk_mem]
    constructor
    · rintro (hd | ⟨k, _, hall, hd⟩)
      · exact Or.inl hd
      · exact Or.inr ⟨by simp, k, hall, hd⟩
    · rintro (hd | ⟨_, k, hall, hd⟩)
      · exact Or.inl hd
      · right
        refine ⟨k, ?_, hall, hd⟩
        have := (hall k le_rfl).1
        simp only [GoTime.add, GoTime.inTz] at this
        unfold walkFuel
        simp only [GoTime.inTz]
        omega

/-- C9 amended: a day number is in the bucket set iff some fetched occurrence
either STARTS on that day of month (whatever month and year that start lies
in), or is a timed (non-all-day) occurrence one of whose successive 24-hour
steps from its start is still before its end, still inside the requested
month number, and falls on that day of month.  In particular an occurrence
starting outside the requested month still contributes its start's
day-of-month, and a multi-day all-day occurrence contributes only its start
day. -/
theorem claimC9_amended :
    ∀ (tz : Tz) (m : Nat) (events : List Event) (d0 : Nat),
      d0 ∈ getEventsMonthDays tz m events ↔
        ∃ ev ∈ events,
          d0 = (ev.start.inTz tz).day ∨
          (ev.allDay = false ∧ ∃ k : Nat,
            (∀ j : Nat, j ≤ k → stepOk (ev.start.inTz tz) (ev.endT.inTz tz) m j) ∧
            d0 = ((ev.start.inTz tz).add (86400 * k)).day) := by
  intro tz m events d0
  induction events with
  | nil => simp [getEventsMonthDays]
  | cons ev evs ih =>
    have hsplit : getEventsMonthDays tz m (ev :: evs) =
        eventDays tz m ev ++ getEventsMonthDays tz m evs := rfl
    rw [hsplit, List.mem_append, ih, eventDays_mem]
    constructor
    · rintro (h | ⟨ev', hmem, h⟩)
      · exact ⟨ev, List.mem_cons_self _ _, h⟩
      · exact ⟨ev', List.mem_cons_of_mem _ hmem, h⟩
    · rintro ⟨ev', hmem, h⟩
      rcases List.mem_cons.mp hmem with rfl | hmem'
      · exact Or.inl h
      · exact Or.inr ⟨ev', hmem', h⟩

/-- A second definition, following the claim words (the spec side of the
refinement): day d of the requested month m in year y has at least one
occurrence iff some occurrence interval [start, end) meets that day's
half-open window in the display timezone. -/
def occursOnDay (tz : Tz) (y : Int) (m d : Nat) (ev : Event) : Bool :=
  let dayStart := mkTimeInLoc y m d 0 0 0 tz
  decide (ev.start.unix < (dayStart.add 86400).unix) && decide (dayStart.unix < ev.endT.unix)

def specDayHasOccurrence (tz : Tz) (y : Int) (m d : Nat) (events : List Event) : Bool :=
  events.any (occursOnDay tz y m d)

/-- A one-hour timed occurrence on 2026-01-28. -/
def evJan : Event :=
  { uid := "j".data, summary := [], description := [], location := []
    start := mkTimeInLoc 2026 1 28 9 0 0 utcTz
    endT := mkTimeInLoc 2026 1 28 10 0 0 utcTz
    allDay := false, calendarName := "cal-a", calendarColor := "#112233"
    isRecurring := false }

/-- C9 counterexample: for the request month = February and a single
occurrence lying entirely inside January (2026-01-28 09:00-10:00), the
endpoint's bucket set is the singleton 28, although no day of the requested
February has any occurrence: the code marks the start's day-of-month without
checking the month, so the returned set is not the set of day-of-month
integers of that month having at least one occurrence. -/
theorem claimC9_counterexample :
    getEventsMonthDays utcTz 2 [evJan] = [28] ∧
    (∀ d : Nat, d ≤ 31 → specDayHasOccurrence utcTz 2026 2 d [evJan] = false) := by
  exact ⟨by decide, by decide⟩

/-- Witness for C9 amended: the characterization evaluated at the concrete
January occurrence and request month February: only the start day 28 is in
the bucket set. -/
theorem claimC9_amended_witness :
    (28 ∈ getEventsMonthDays utcTz 2 [evJan] ↔
      ∃ ev ∈ [evJan],
        (28 = (ev.start.inTz utcTz).day ∨
          (ev.allDay = false ∧ ∃ k : Nat,
            (∀ j : Nat, j ≤ k → stepOk (ev.start.inTz utcTz) (ev.endT.inTz utcTz) 2 j) ∧
            28 = ((ev.start.inTz utcTz).add (86400 * k)).day))) :=
  claimC9_amended utcTz 2 [evJan] 28

/-! ## Digit rendering and parse round trips -/

lemma digitsVal_append_singleton (xs : List Char) (c : Char) :
    digitsVal (xs ++ [c]) = digitsVal xs * 10 + (c.toNat - 48) := by
  unfold digitsVal
  rw [List.foldl_append]
  rfl

lemma digitChar_facts (r : Nat) (h : r < 10) :
    (Char.ofNat (48 + r)).toNat = 48 + r ∧ isDigitCh (Char.ofNat (48 + r)) = true := by
  interval_cases r <;> exact ⟨by decide, by decide⟩

lemma padNum_length (k : Nat) : ∀ v, (padNum k v).length = k := by
  induction k with
  | zero => intro v; rfl
  | succ k ih =>
    intro v
    simp [padNum, ih]

lemma padNum_all_digits (k : Nat) : ∀ v, (padNum k v).all isDigitCh = true := by
  induction k with
  | zero => intro v; rfl
  | succ k ih =>
    intro v
    simp only [padNum, List.all_append, ih, Bool.true_and, List.all_cons, List.all_nil,
      Bool.and_true]
    exact (digitChar_facts (v % 10) (Nat.mod_lt _ (by norm_num))).2

lemma padNum_val (k : Nat) : ∀ v, v < 10 ^ k → digitsVal (padNum k v) = v := by
  induction k with
  | zero =>
    intro v h
    simp only [pow_zero, Nat.lt_one_iff] at h
    simp [padNum, digitsVal, h]
  | succ k ih =>
    intro v h
    have h10 : v / 10 < 10 ^ k := by
      apply Nat.div_lt_of_lt_mul
      rw [pow_succ] at h
      omega
    rw [padNum, digitsVal_append_singleton, ih (v / 10) h10,
      (digitChar_facts (v % 10) (Nat.mod_lt _ (by norm_num))).1]
    omega

lemma parseNDigits_padNum (k v : Nat) (rest : List Char) (h : v < 10 ^ k) :
    parseNDigits k (padNum k v ++ rest) = some (v, rest) := by
  have hlen : (padNum k v).length = k := padNum_length k v
  simp only [parseNDigits]
  rw [List.take_left' hlen, List.drop_left' hlen]
  rw [if_pos ⟨hlen, padNum_all_digits k v⟩, padNum_val k v h]

lemma parseNDigits_padNum_nil (k v : Nat) (h : v < 10 ^ k) :
    parseNDigits k (padNum k v) = some (v, []) := by
  rw [← List.append_nil (padNum k v)]
  exact parseNDigits_padNum k v [] h

/-- A well-formed YYYY-MM-DD request parameter (zero padded). -/
def renderDashDate (y : Int) (m d : Nat) : List Char :=
  padNum 4 y.toNat ++ '-' :: (padNum 2 m ++ '-' :: padNum 2 d)

lemma parseLayoutDashDate_render (y : Int) (m d : Nat) (h0 : 1 ≤ y) (h9 : y ≤ 9999)
    (hv : validYMD y m d = true) :
    parseLayoutDashDate (renderDashDate y m d) = some (y, m, d) := by
  have hm : m < 10 ^ 2 := by
    simp only [validYMD, Bool.and_eq_true, decide_eq_true_eq] at hv
    omega
  have hd : d < 10 ^ 2 := by
    simp only [validYMD, Bool.and_eq_true, decide_eq_true_eq] at hv
    have h31 := hv.2
    unfold daysInMonth at h31
    split_ifs at h31 <;> omega
  have hy : y.toNat < 10 ^ 4 := by omega
  have hyy : ((y.toNat : Nat) : Int) = y := by omega
  unfold renderDashDate parseLayoutDashDate
  rw [parseNDigits_padNum 4 y.toNat _ hy]
  simp only [Option.bind_eq_bind, Option.some_bind]
  rw [show expectChar '-' ('-' :: (padNum 2 m ++ '-' :: padNum 2 d)) =
    some (padNum 2 m ++ '-' :: padNum 2 d) by simp [expectChar]]
  simp only [Option.some_bind]
  rw [parseNDigits_padNum 2 m _ hm]
  simp only [Option.some_bind]
  rw [show expectChar '-' ('-' :: padNum 2 d) = some (padNum 2 d) by simp [expectChar]]
  simp only [Option.some_bind]
  rw [parseNDigits_padNum_nil 2 d hd]
  simp only [Option.some_bind]
  rw [hyy]
  simp [hv]

/-! Calendar successor arithmetic, for the handed-off query window. -/

/-- The calendar successor of a civil date. -/
def nextDate (y : Int) (m d : Nat) : Int × Nat × Nat :=
  if d < daysInMonth y m then (y, m, d + 1)
  else if m < 12 then (y, m + 1, 1)
  else (y + 1, 1, 1)

lemma daysBeforeMonth_succ (y : Int) (m : Nat) (h : 1 ≤ m) :
    daysBeforeMonth y (m + 1) = daysBeforeMonth y m + daysInMonth y m := by
  cases m with
  | zero => omega
  | succ m' => rfl

lemma daysBeforeYear_succ (y : Int) :
    daysBeforeYear (y + 1) = daysBeforeYear y + daysInYear y := by
  unfold daysBeforeYear
  by_cases h : 1970 ≤ y
  · rw [if_pos h, if_pos (by omega)]
    have h1 : (y + 1 - 1970).toNat = (y - 1970).toNat + 1 := by omega
    rw [h1, daysUpTo]
    have h2 : (1970 : Int) + ((y - 1970).toNat : Int) = y := by omega
    rw [h2]
  · by_cases h2 : 1970 ≤ y + 1
    · have hy : y = 1969 := by omega
      subst hy
      rw [if_pos h2, if_neg h]
      norm_num [daysUpTo, daysDownTo]
    · rw [if_neg h, if_neg h2]
      have h1 : (1970 - y).toNat = (1970 - (y + 1)).toNat + 1 := by omega
      rw [h1, daysDownTo]
      have h3 : (1969 : Int) - ((1970 - (y + 1)).toNat : Int) = y := by omega
      rw [h3]
      ring

lemma daysInYear_split (y : Int) :
    (daysBeforeMonth y 12 : Int) + (daysInMonth y 12 : Int) = (daysInYear y : Int) := by
  cases hl : isLeap y <;>
    simp [daysBeforeMonth, daysInMonth, daysInYear, hl]

lemma daysFromCivil_nextDate (y : Int) (m d : Nat) (hm1 : 1 ≤ m) (hm2 : m ≤ 12)
    (hd1 : 1 ≤ d) (hd2 : d ≤ daysInMonth y m) :
    daysFromCivil (nextDate y m d).1 (nextDate y m d).2.1 (nextDate y m d).2.2 =
      daysFromCivil y m d + 1 := by
  unfold nextDate
  by_cases h1 : d < daysInMonth y m
  · rw [if_pos h1]
    unfold daysFromCivil
    push_cast
    ring
  · rw [if_neg h1]
    have hd' : d = daysInMonth y m := by omega
    by_cases h2 : m < 12
    · rw [if_pos h2]
      unfold daysFromCivil
      rw [daysBeforeMonth_succ y m hm1]
      subst hd'
      push_cast
      ring
    · have hm' : m = 12 := by omega
      subst hm'
      rw [if_neg h2]
      unfold daysFromCivil
      rw [daysBeforeYear_succ]
      have hs := daysInYear_split y
      have hb1 : daysBeforeMonth y 1 = 0 := rfl
      have hb12 : daysBeforeMonth (y + 1) 1 = 0 := rfl
      rw [hb12]
      subst hd'
      push_cast
      push_cast at hs
      omega

/-- C10 (implicit): for every valid request to the events endpoint with date
parameters start = S and end = E (well-formed YYYY-MM-DD dates), the window
handed to every source fetch is [S at 00:00 display timezone, the calendar
day after E at 00:00 display timezone): one day (24 hours, which under the
fixed-offset timezone model is exactly the next midnight) is added to the
parsed end before any fetch is attempted, so the end date itself is
included. -/
theorem claimC10 :
    ∀ (tz : Tz) (y1 : Int) (m1 d1 : Nat) (y2 : Int) (m2 d2 : Nat),
      1 ≤ y1 → y1 ≤ 9999 → validYMD y1 m1 d1 = true →
      1 ≤ y2 → y2 ≤ 9999 → validYMD y2 m2 d2 = true →
      getEventsWindow (renderDashDate y1 m1 d1) (renderDashDate y2 m2 d2) tz =
        some (mkTimeInLoc y1 m1 d1 0 0 0 tz,
          mkTimeInLoc (nextDate y2 m2 d2).1 (nextDate y2 m2 d2).2.1
            (nextDate y2 m2 d2).2.2 0 0 0 tz) := by
  intro tz y1 m1 d1 y2 m2 d2 ha1 ha2 hv1 hb1 hb2 hv2
  have hval : ∀ (y : Int) (m d : Nat), validYMD y m d = true →
      1 ≤ m ∧ m ≤ 12 ∧ 1 ≤ d ∧ d ≤ daysInMonth y m := by
    intro y m d hv
    simp only [validYMD, Bool.and_eq_true, decide_eq_true_eq] at hv
    obtain ⟨⟨⟨x1, x2⟩, x3⟩, x4⟩ := hv
    exact ⟨x1, x2, x3, x4⟩
  have hne : ∀ (y : Int) (m d : Nat), renderDashDate y m d ≠ [] := by
    intro y m d h
    have := congrArg List.length h
    simp [renderDashDate, padNum_length] at this
  unfold getEventsWindow
  rw [if_neg (by push_neg; exact ⟨hne y1 m1 d1, hne y2 m2 d2⟩)]
  unfold goParseInLocDashDate
  rw [parseLayoutDashDate_render y1 m1 d1 ha1 ha2 hv1,
    parseLayoutDashDate_render y2 m2 d2 hb1 hb2 hv2]
  simp only [Option.map_some', Option.bind_eq_bind, Option.some_bind]
  congr 1
  congr 1
  obtain ⟨hm1, hm2', hd1, hd2'⟩ := hval y2 m2 d2 hv2
  have hnext := daysFromCivil_nextDate y2 m2 d2 hm1 hm2' hd1 hd2'
  simp only [GoTime.add, mkTimeInLoc]
  rw [GoTime.mk.injEq]
  constructor
  · rw [hnext]
    push_cast
    ring
  · rfl

/-- Witness for C10: the theorem applied at the concrete request
start=2026-01-01, end=2026-01-31. -/
theorem claimC10_witness :
    getEventsWindow (renderDashDate 2026 1 1) (renderDashDate 2026 1 31) utcTz =
      some (mkTimeInLoc 2026 1 1 0 0 0 utcTz,
        mkTimeInLoc (nextDate 2026 1 31).1 (nextDate 2026 1 31).2.1
          (nextDate 2026 1 31).2.2 0 0 0 utcTz) :=
  claimC10 utcTz 2026 1 1 2026 1 31 (by decide) (by decide) (by decide)
    (by decide) (by decide) (by decide)

/-! C5: exclusion-date parsing and removal. -/

/-- C5 counterexample: in a display timezone at UTC+1, the exclusion-date
parser interprets the Z-suffixed value 20240101T100000Z as the wall clock
10:00 IN THE DISPLAY TIMEZONE (the Z of its first layout is a literal
matched by ParseInLocation with the display zone), while the event date-time
parser interprets the same value as the absolute UTC instant 10:00Z; the two
resulting instants differ by the zone offset, refuting the claim that
exclusion entries are parsed with the same value-kind logic in which a UTC
marker suffix denotes the absolute UTC instant. -/
theorem claimC5_counterexample :
    parseICalDate "20240101T100000Z".data tzPlus1 =
      some (mkTimeInLoc 2024 1 1 10 0 0 tzPlus1) ∧
    parseDateTime tzPlus1 (fun _ => none)
        { value := "20240101T100000Z".data, params := [] } =
      some ((mkTimeInLoc 2024 1 1 10 0 0 utcTz).inTz tzPlus1, false) ∧
    (mkTimeInLoc 2024 1 1 10 0 0 tzPlus1).unix ≠
      (mkTimeInLoc 2024 1 1 10 0 0 utcTz).unix := by
  exact ⟨by decide, by decide, by decide⟩

/-- A well-formed Z-suffixed iCalendar date-time value (zero padded). -/
def renderDTZ (y : Int) (m d hh mm ss : Nat) : List Char :=
  padNum 4 y.toNat ++ (padNum 2 m ++ (padNum 2 d ++
    'T' :: (padNum 2 hh ++ (padNum 2 mm ++ (padNum 2 ss ++ ['Z'])))))

lemma parseLayoutDateTimeZ_render (y : Int) (m d hh mm ss : Nat)
    (h0 : 1 ≤ y) (h9 : y ≤ 9999) (hv : validYMD y m d = true)
    (hh23 : hh ≤ 23) (hmm59 : mm ≤ 59) (hss59 : ss ≤ 59) :
    parseLayoutDateTimeZ (renderDTZ y m d hh mm ss) = some (y, m, d, hh, mm, ss) := by
  have hm : m < 10 ^ 2 := by
    simp only [validYMD, Bool.and_eq_true, decide_eq_true_eq] at hv
    omega
  have hd : d < 10 ^ 2 := by
    simp only [validYMD, Bool.and_eq_true, decide_eq_true_eq] at hv
    have h31 := hv.2
    unfold daysInMonth at h31
    split_ifs at h31 <;> omega
  have hy : y.toNat < 10 ^ 4 := by omega
  have hyy : ((y.toNat : Nat) : Int) = y := by omega
  have hvh : validHMS hh mm ss = true := by
    simp only [validHMS, Bool.and_eq_true, decide_eq_true_eq]
    omega
  unfold renderDTZ parseLayoutDateTimeZ
  rw [parseNDigits_padNum 4 y.toNat _ hy]
  simp only [Option.bind_eq_bind, Option.some_bind]
  rw [parseNDigits_padNum 2 m _ hm]
  simp only [Option.some_bind]
  rw [parseNDigits_padNum 2 d _ hd]
  simp only [Option.some_bind]
  rw [show expectChar 'T'
      ('T' :: (padNum 2 hh ++ (padNum 2 mm ++ (padNum 2 ss ++ ['Z'])))) =
      some (padNum 2 hh ++ (padNum 2 mm ++ (padNum 2 ss ++ ['Z']))) by simp [expectChar]]
  simp only [Option.some_bind]
  rw [parseNDigits_padNum 2 hh _ (by omega)]
  simp only [Option.some_bind]
  rw [parseNDigits_padNum 2 mm _ (by omega)]
  simp only [Option.some_bind]
  rw [parseNDigits_padNum 2 ss _ (by omega)]
  simp only [Option.some_bind]
  rw [show expectChar 'Z' ['Z'] = some [] by simp [expectChar]]
  simp only [Option.some_bind]
  rw [hyy]
  simp [hv, hvh]

/-! Comma splitting of the EXDATE value. -/

lemma splitOn_not_mem (sep : Char) (s : List Char) (h : sep ∉ s) :
    splitOn sep s = [s] := by
  induction s with
  | nil => rfl
  | cons c cs ih =>
    have hc : ¬ (c = sep) := fun e => h (e ▸ List.mem_cons_self c cs)
    have hcs : sep ∉ cs := fun hm => h (List.mem_cons_of_mem _ hm)
    simp [splitOn, hc, ih hcs]

lemma splitOn_append_sep (sep : Char) (as bs : List Char) (h : sep ∉ as) :
    splitOn sep (as ++ sep :: bs) = as :: splitOn sep bs := by
  induction as with
  | nil => simp [splitOn]
  | cons a as' ih =>
    have ha : ¬ (a = sep) := fun e => h (e ▸ List.mem_cons_self a as')
    have has : sep ∉ as' := fun hm => h (List.mem_cons_of_mem _ hm)
    simp only [List.cons_append, splitOn, if_neg ha]
    have harw : splitOn sep (as'.append (sep :: bs)) = as' :: splitOn sep bs := ih has
    rw [harw]

/-- The comma-joined EXDATE property value that the calendar store delivers
for a list of exclusion entries. -/
def joinComma : List (List Char) → List Char
  | [] => []
  | [e] => e
  | e :: rest => e ++ ',' :: joinComma rest

lemma splitOn_joinComma (entries : List (List Char)) (hne : entries ≠ [])
    (h : ∀ e ∈ entries, ',' ∉ e) :
    splitOn ',' (joinComma entries) = entries := by
  induction entries with
  | nil => exact absurd rfl hne
  | cons e rest ih =>
    cases rest with
    | nil =>
      exact splitOn_not_mem ',' e (h e (List.mem_cons_self _ _))
    | cons e2 rest' =>
      have hstep : joinComma (e :: e2 :: rest') = e ++ ',' :: joinComma (e2 :: rest') := rfl
      rw [hstep, splitOn_append_sep ',' e _ (h e (List.mem_cons_self _ _)),
        ih (by simp) (fun x hx => h x (List.mem_cons_of_mem _ hx))]

/-- C5 amended: every exclusion-date entry is parsed by trying, in order, the
layouts YYYYMMDDTHHMMSS-then-literal-Z, YYYYMMDDTHHMMSS and YYYYMMDD, all
interpreted as wall clock in the display timezone — so a Z-suffixed entry
denotes the local wall-clock instant, NOT the absolute UTC instant that the
event date-time logic assigns it; the successfully parsed entries remove
generated candidate starts by exact instant equality; an unparsable entry is
skipped and never aborts the series. -/
theorem claimC5_amended :
    (∀ (tz : Tz) (y : Int) (m d hh mm ss : Nat),
      1 ≤ y → y ≤ 9999 → validYMD y m d = true → hh ≤ 23 → mm ≤ 59 → ss ≤ 59 →
      parseICalDate (renderDTZ y m d hh mm ss) tz = some (mkTimeInLoc y m d hh mm ss tz)) ∧
    (∀ (tz : Tz) (entries : List (List Char)) (ps : List (String × String)),
      entries ≠ [] → (∀ e ∈ entries, ',' ∉ e) →
      parseExdates tz (some { value := joinComma entries, params := ps }) =
        entries.filterMap (fun e => parseICalDate e tz)) ∧
    (∀ (cands exdates : List GoTime) (t : GoTime),
      t ∈ rsetBetween cands exdates ↔ t ∈ cands ∧ ∀ e ∈ exdates, e.unix ≠ t.unix) ∧
    (∀ (c : Client) (comp : VEvent) (uid summary description location : List Char)
      (startTime endTime qs qe : GoTime) (allDay : Bool) (r : ICalProp)
      (cands : List GoTime), comp.rrule = some r →
      ∃ evs, expandRecurringEvent c comp uid summary description location startTime endTime
        allDay qs qe true cands = some evs) := by
  refine ⟨?_, ?_, ?_, ?_⟩
  · intro tz y m d hh mm ss h0 h9 hv hh23 hmm59 hss59
    unfold parseICalDate goParseInLocDateTimeZ
    rw [parseLayoutDateTimeZ_render y m d hh mm ss h0 h9 hv hh23 hmm59 hss59]
    rfl
  · intro tz entries ps hne h
    simp only [parseExdates]
    rw [splitOn_joinComma entries hne h]
  · intro cands exdates t
    simp [rsetBetween, List.mem_filter, List.any_eq_true, beq_iff_eq]
  · intro c comp uid summary description location startTime endTime qs qe allDay r cands hrr
    unfold expandRecurringEvent
    simp only [hrr, Bool.true_eq_false, if_false]
    exact ⟨_, rfl⟩

/-- Witness for C5 amended: a Z-suffixed entry parsed as display-zone wall
clock, a two-entry EXDATE value with one unparsable entry skipped, removal by
instant equality, and a series that survives unparsable exclusion entries. -/
theorem claimC5_amended_witness :
    parseICalDate (renderDTZ 2024 1 1 10 0 0) tzPlus1 =
      some (mkTimeInLoc 2024 1 1 10 0 0 tzPlus1) ∧
    parseExdates tzPlus1
        (some { value := joinComma ["20240101T100000Z".data, "xx".data]
                params := [] }) =
      ["20240101T100000Z".data, "xx".data].filterMap (fun e => parseICalDate e tzPlus1) ∧
    ({ unix := 5, loc := utcTz } ∈
        rsetBetween [{ unix := 5, loc := utcTz }] [{ unix := 5, loc := tzPlus1 }] ↔
      ({ unix := 5, loc := utcTz } : GoTime) ∈ [({ unix := 5, loc := utcTz } : GoTime)] ∧
        ∀ e ∈ [({ unix := 5, loc := tzPlus1 } : GoTime)], e.unix ≠ 5) ∧
    (∃ evs, expandRecurringEvent clUtc compR "u".data [] [] []
        gZero gZero false gZero gZero true [] = some evs) :=
  ⟨claimC5_amended.1 tzPlus1 2024 1 1 10 0 0 (by decide) (by decide) (by decide)
      (by decide) (by decide) (by decide),
    claimC5_amended.2.1 tzPlus1 ["20240101T100000Z".data, "xx".data] [] (by simp)
      (by decide),
    claimC5_amended.2.2.1 [{ unix := 5, loc := utcTz }] [{ unix := 5, loc := tzPlus1 }]
      { unix := 5, loc := utcTz },
    claimC5_amended.2.2.2 clUtc compR "u".data [] [] [] gZero gZero gZero gZero false
      { value := "FREQ=DAILY".data, params := [] } [] rfl⟩

/-! C6: the duration parser. -/

lemma wrap64_eq_self {x : Int} (h1 : -9223372036854775808 ≤ x)
    (h2 : x ≤ 9223372036854775807) : wrap64 x = x := by
  unfold wrap64
  omega

lemma goAtoi_digits (ds : List Char) (hne : ds ≠ []) (hdig : ds.all isDigitCh = true)
    (hr : ((digitsVal ds : Nat) : Int) ≤ 9223372036854775807) :
    goAtoi ds = some ((digitsVal ds : Nat) : Int) := by
  cases ds with
  | nil => exact absurd rfl hne
  | cons c cs =>
    have hc : isDigitCh c = true := by
      rw [List.all_eq_true] at hdig
      exact hdig c (List.mem_cons_self _ _)
    have hplus : ¬ (c = '+') := by
      intro e
      subst e
      exact absurd hc (by decide)
    have hminus : ¬ (c = '-') := by
      intro e
      subst e
      exact absurd hc (by decide)
    simp only [goAtoi]
    rw [if_neg hplus, if_neg hminus, if_pos hdig, if_pos hr]

lemma goAtoi_range_fail (ds : List Char) (hdig : ds.all isDigitCh = true)
    (hr : 9223372036854775807 < ((digitsVal ds : Nat) : Int)) :
    goAtoi ds = none := by
  cases ds with
  | nil => rfl
  | cons c cs =>
    have hc : isDigitCh c = true := by
      rw [List.all_eq_true] at hdig
      exact hdig c (List.mem_cons_self _ _)
    have hplus : ¬ (c = '+') := by
      intro e
      subst e
      exact absurd hc (by decide)
    have hminus : ¬ (c = '-') := by
      intro e
      subst e
      exact absurd hc (by decide)
    simp only [goAtoi]
    rw [if_neg hplus, if_neg hminus, if_pos hdig, if_neg (by omega)]

lemma not_digit_not_mem {c : Char} (hc : isDigitCh c = false) {ds : List Char}
    (hdig : ds.all isDigitCh = true) : c ∉ ds := by
  intro hm
  rw [List.all_eq_true] at hdig
  have := hdig c hm
  simp [hc] at this

lemma elem_false (l : List Char) (c : Char) (h : c ∉ l) : l.elem c = false := by
  rw [Bool.eq_false_iff]
  intro ht
  exact h (List.elem_iff.mp ht)

lemma elem_true (l : List Char) (c : Char) (h : c ∈ l) : l.elem c = true :=
  List.elem_iff.mpr h

lemma indexOfC_append (c : Char) (xs ys : List Char) (h : c ∉ xs) :
    indexOfC c (xs ++ c :: ys) = xs.length := by
  induction xs with
  | nil => simp [indexOfC]
  | cons x xs' ih =>
    have hx : ¬ (x = c) := fun e => h (e ▸ List.mem_cons_self x xs')
    have h' : c ∉ xs' := fun hm => h (List.mem_cons_of_mem _ hm)
    simp [indexOfC, hx, ih h']

lemma drop_append_cons (xs : List Char) (c : Char) (ys : List Char) :
    (xs ++ c :: ys).drop (xs.length + 1) = ys := by
  have h1 : xs ++ c :: ys = (xs ++ [c]) ++ ys := by simp
  have h2 : (xs ++ [c]).length = xs.length + 1 := by simp
  rw [h1, List.drop_left' h2]

lemma trimSuffixC_concat (c : Char) (xs : List Char) :
    trimSuffixC c (xs ++ [c]) = xs := by
  simp [trimSuffixC, List.getLast?_concat, List.dropLast_concat]

/-- The numeric value of an optional digit field (absent fields contribute
zero). -/
def dval : Option (List Char) → Int
  | none => 0
  | some ds => ((digitsVal ds : Nat) : Int)

lemma dval_nonneg (o : Option (List Char)) : 0 ≤ dval o := by
  cases o <;> simp [dval]

lemma dval_none : dval none = 0 := rfl

/-- An optional grammar component: digits followed by the unit letter, or
nothing. -/
def optComp (o : Option (List Char)) (u : Char) : List Char :=
  match o with
  | none => []
  | some ds => ds ++ [u]

/-- Well-formedness of an optional digit field: present fields are nonempty
all-digit strings. -/
def goodOpt (o : Option (List Char)) : Prop :=
  ∀ ds, o = some ds → ds ≠ [] ∧ ds.all isDigitCh = true

lemma not_mem_optComp {c u : Char} (hcd : isDigitCh c = false) (hcu : c ≠ u)
    {o : Option (List Char)} (ho : goodOpt o) : c ∉ optComp o u := by
  cases o with
  | none => simp [optComp]
  | some ds =>
    obtain ⟨hne, hdig⟩ := ho ds rfl
    intro hm
    rcases List.mem_append.mp hm with h1 | h1
    · exact not_digit_not_mem hcd hdig h1
    · exact hcu (List.mem_singleton.mp h1)

lemma parseDatePart_week (ds : List Char) (hne : ds ≠ [])
    (hdig : ds.all isDigitCh = true)
    (hb : ((digitsVal ds : Nat) : Int) * 604800000000000 ≤ 9223372036854775807) :
    parseDatePart (ds ++ ['W']) =
      some (((digitsVal ds : Nat) : Int) * 604800000000000) := by
  have hv0 : (0 : Int) ≤ ((digitsVal ds : Nat) : Int) := Int.natCast_nonneg _
  have hr : ((digitsVal ds : Nat) : Int) ≤ 9223372036854775807 := by omega
  unfold parseDatePart
  rw [if_pos (elem_true _ 'W' (by simp)), trimSuffixC_concat, goAtoi_digits ds hne hdig hr]
  simp only [Option.map_some', Option.some.injEq]
  have e1 : wmul ((digitsVal ds : Nat) : Int) 7 = ((digitsVal ds : Nat) : Int) * 7 := by
    unfold wmul
    exact wrap64_eq_self (by omega) (by omega)
  rw [e1]
  have e2 : wmul (((digitsVal ds : Nat) : Int) * 7) 24 =
      ((digitsVal ds : Nat) : Int) * 7 * 24 := by
    unfold wmul
    exact wrap64_eq_self (by omega) (by omega)
  rw [e2]
  have e3 : wmul (((digitsVal ds : Nat) : Int) * 7 * 24) 3600000000000 =
      ((digitsVal ds : Nat) : Int) * 7 * 24 * 3600000000000 := by
    unfold wmul
    exact wrap64_eq_self (by omega) (by omega)
  rw [e3]
  omega

lemma parseDatePart_day (dd : Option (List Char)) (h : goodOpt dd)
    (hb : dval dd * 86400000000000 ≤ 9223372036854775807) :
    parseDatePart (optComp dd 'D') = some (dval dd * 86400000000000) := by
  cases dd with
  | none =>
    simp [optComp, parseDatePart, dval]
  | some ds =>
    obtain ⟨hne, hdig⟩ := h ds rfl
    have hv0 : (0 : Int) ≤ ((digitsVal ds : Nat) : Int) := Int.natCast_nonneg _
    have hb' : ((digitsVal ds : Nat) : Int) * 86400000000000 ≤ 9223372036854775807 := by
      simp only [dval] at hb
      exact hb
    have hr : ((digitsVal ds : Nat) : Int) ≤ 9223372036854775807 := by omega
    unfold parseDatePart
    have hw : ('W' : Char) ∉ ds ++ ['D'] := by
      intro hm
      rcases List.mem_append.mp hm with h1 | h1
      · exact not_digit_not_mem (by decide) hdig h1
      · exact absurd (List.mem_singleton.mp h1) (by decide)
    have hwf : (ds ++ ['D']).elem 'W' = false := elem_false _ _ hw
    rw [show optComp (some ds) 'D' = ds ++ ['D'] from rfl]
    rw [if_neg (by rw [hwf]; simp),
      if_pos (elem_true _ 'D' (by simp)), trimSuffixC_concat, goAtoi_digits ds hne hdig hr]
    simp only [Option.map_some', Option.some.injEq, dval]
    have e1 : wmul ((digitsVal ds : Nat) : Int) 24 = ((digitsVal ds : Nat) : Int) * 24 := by
      unfold wmul
      exact wrap64_eq_self (by omega) (by omega)
    rw [e1]
    have e2 : wmul (((digitsVal ds : Nat) : Int) * 24) 3600000000000 =
        ((digitsVal ds : Nat) : Int) * 24 * 3600000000000 := by
      unfold wmul
      exact wrap64_eq_self (by omega) (by omega)
    rw [e2]
    omega

lemma parseDatePart_week_fail (xs : List Char) (hatoi : goAtoi xs = none) :
    parseDatePart (xs ++ ['W']) = none := by
  unfold parseDatePart
  rw [if_pos (elem_true _ 'W' (by simp)), trimSuffixC_concat, hatoi]
  rfl

lemma parseDatePart_day_fail (xs : List Char) (hatoi : goAtoi xs = none)
    (hw : 'W' ∉ xs) :
    parseDatePart (xs ++ ['D']) = none := by
  unfold parseDatePart
  have hw2 : ('W' : Char) ∉ xs ++ ['D'] := by
    intro hm
    rcases List.mem_append.mp hm with h1 | h1
    · exact hw h1
    · exact absurd (List.mem_singleton.mp h1) (by decide)
  have hwf : (xs ++ ['D']).elem 'W' = false := elem_false _ _ hw2
  rw [if_neg (by rw [hwf]; simp),
    if_pos (elem_true _ 'D' (by simp)), trimSuffixC_concat, hatoi]
  rfl

lemma timeChunk_present (u : Char) (mult : Int) (ds rest : List Char)
    (hne : ds ≠ []) (hdig : ds.all isDigitCh = true) (hu : u ∉ ds)
    (hr : ((digitsVal ds : Nat) : Int) ≤ 9223372036854775807) :
    timeChunk u mult (ds ++ u :: rest) =
      some (wmul ((digitsVal ds : Nat) : Int) mult, rest) := by
  unfold timeChunk
  rw [if_pos (elem_true _ u (by simp)), indexOfC_append u ds rest hu]
  simp only [List.take_left, goAtoi_digits ds hne hdig hr, drop_append_cons,
    Option.map_some']

lemma timeChunk_absent (u : Char) (mult : Int) (l : List Char) (h : u ∉ l) :
    timeChunk u mult l = some (0, l) := by
  unfold timeChunk
  rw [if_neg (by rw [elem_false _ _ h]; simp)]

lemma timeChunk_fail (u : Char) (mult : Int) (ds rest : List Char)
    (hatoi : goAtoi ds = none) (hu : u ∉ ds) :
    timeChunk u mult (ds ++ u :: rest) = none := by
  unfold timeChunk
  rw [if_pos (elem_true _ u (by simp)), indexOfC_append u ds rest hu]
  simp only [List.take_left, hatoi, Option.map_none']

lemma parseTimePart_eval (acc : Int) (hs ms ss : Option (List Char))
    (hH : goodOpt hs) (hM : goodOpt ms) (hS : goodOpt ss) (hacc : 0 ≤ acc)
    (hb : acc + dval hs * 3600000000000 + dval ms * 60000000000 +
      dval ss * 1000000000 ≤ 9223372036854775807) :
    parseTimePart acc (optComp hs 'H' ++ (optComp ms 'M' ++ optComp ss 'S')) =
      some (acc + dval hs * 3600000000000 + dval ms * 60000000000 +
        dval ss * 1000000000) := by
  have h0H := dval_nonneg hs
  have h0M := dval_nonneg ms
  have h0S := dval_nonneg ss
  have hfH : timeChunk 'H' 3600000000000
      (optComp hs 'H' ++ (optComp ms 'M' ++ optComp ss 'S')) =
      some (dval hs * 3600000000000, optComp ms 'M' ++ optComp ss 'S') := by
    cases hs with
    | none =>
      rw [show optComp none 'H' = ([] : List Char) from rfl, List.nil_append]
      rw [timeChunk_absent 'H' 3600000000000 _ ?_]
      · simp [dval]
      · intro hm
        rcases List.mem_append.mp hm with h1 | h1
        · exact not_mem_optComp (by decide) (by decide) hM h1
        · exact not_mem_optComp (by decide) (by decide) hS h1
    | some hds =>
      obtain ⟨hne, hdig⟩ := hH hds rfl
      have hd : dval (some hds) = ((digitsVal hds : Nat) : Int) := rfl
      rw [hd]
      rw [show optComp (some hds) 'H' = hds ++ ['H'] from rfl, List.append_assoc,
        List.singleton_append]
      rw [timeChunk_present 'H' 3600000000000 hds _ hne hdig
        (not_digit_not_mem (by decide) hdig) (by rw [← hd]; omega)]
      have e1 : wmul ((digitsVal hds : Nat) : Int) 3600000000000 =
          ((digitsVal hds : Nat) : Int) * 3600000000000 := by
        unfold wmul
        exact wrap64_eq_self (by rw [← hd]; omega) (by rw [← hd]; omega)
      rw [e1]
  have hfM : timeChunk 'M' 60000000000 (optComp ms 'M' ++ optComp ss 'S') =
      some (dval ms * 60000000000, optComp ss 'S') := by
    cases ms with
    | none =>
      rw [show optComp none 'M' = ([] : List Char) from rfl, List.nil_append]
      rw [timeChunk_absent 'M' 60000000000 _
        (not_mem_optComp (by decide) (by decide) hS)]
      simp [dval]
    | some mds =>
      obtain ⟨hne, hdig⟩ := hM mds rfl
      have hd : dval (some mds) = ((digitsVal mds : Nat) : Int) := rfl
      rw [hd]
      rw [show optComp (some mds) 'M' = mds ++ ['M'] from rfl, List.append_assoc,
        List.singleton_append]
      rw [timeChunk_present 'M' 60000000000 mds _ hne hdig
        (not_digit_not_mem (by decide) hdig) (by rw [← hd]; omega)]
      have e1 : wmul ((digitsVal mds : Nat) : Int) 60000000000 =
          ((digitsVal mds : Nat) : Int) * 60000000000 := by
        unfold wmul
        exact wrap64_eq_self (by rw [← hd]; omega) (by rw [← hd]; omega)
      rw [e1]
  have hfS : timeChunk 'S' 1000000000 (optComp ss 'S') =
      some (dval ss * 1000000000, []) := by
    cases ss with
    | none =>
      rw [show optComp none 'S' = ([] : List Char) from rfl]
      rw [timeChunk_absent 'S' 1000000000 [] (by simp)]
      simp [dval]
    | some sds =>
      obtain ⟨hne, hdig⟩ := hS sds rfl
      have hd : dval (some sds) = ((digitsVal sds : Nat) : Int) := rfl
      rw [hd]
      rw [show optComp (some sds) 'S' = sds ++ ['S'] from rfl,
        show sds ++ ['S'] = sds ++ 'S' :: [] from rfl]
      rw [timeChunk_present 'S' 1000000000 sds [] hne hdig
        (not_digit_not_mem (by decide) hdig) (by rw [← hd]; omega)]
      have e1 : wmul ((digitsVal sds : Nat) : Int) 1000000000 =
          ((digitsVal sds : Nat) : Int) * 1000000000 := by
        unfold wmul
        exact wrap64_eq_self (by rw [← hd]; omega) (by rw [← hd]; omega)
      rw [e1]
  have h0H' : 0 ≤ dval hs * 3600000000000 := by omega
  have h0M' : 0 ≤ dval ms * 60000000000 := by omega
  have h0S' : 0 ≤ dval ss * 1000000000 := by omega
  unfold parseTimePart
  rw [hfH]
  simp only [Option.bind_eq_bind, Option.some_bind]
  rw [hfM]
  simp only [Option.some_bind]
  rw [hfS]
  simp only [Option.some_bind, Option.some.injEq]
  have e1 : wadd acc (dval hs * 3600000000000) = acc + dval hs * 3600000000000 := by
    unfold wadd
    exact wrap64_eq_self (by omega) (by omega)
  rw [e1]
  have e2 : wadd (acc + dval hs * 3600000000000) (dval ms * 60000000000) =
      acc + dval hs * 3600000000000 + dval ms * 60000000000 := by
    unfold wadd
    exact wrap64_eq_self (by omega) (by omega)
  rw [e2]
  unfold wadd
  exact wrap64_eq_self (by omega) (by omega)

lemma parseDatePart_nil : parseDatePart [] = some 0 := rfl

lemma parseTimePart_fail_H (acc : Int) (xs : List Char) (hatoi : goAtoi xs = none)
    (hH : 'H' ∉ xs) : parseTimePart acc (xs ++ ['H']) = none := by
  unfold parseTimePart
  rw [show xs ++ ['H'] = xs ++ 'H' :: [] from rfl,
    timeChunk_fail 'H' 3600000000000 xs [] hatoi hH]
  rfl

lemma parseTimePart_fail_M (acc : Int) (xs : List Char) (hatoi : goAtoi xs = none)
    (hHx : 'H' ∉ xs) (hMx : 'M' ∉ xs) : parseTimePart acc (xs ++ ['M']) = none := by
  unfold parseTimePart
  have hH : ('H' : Char) ∉ xs ++ ['M'] := by
    intro hm
    rcases List.mem_append.mp hm with h1 | h1
    · exact hHx h1
    · exact absurd (List.mem_singleton.mp h1) (by decide)
  rw [timeChunk_absent 'H' 3600000000000 _ hH]
  simp only [Option.bind_eq_bind, Option.some_bind]
  rw [show xs ++ ['M'] = xs ++ 'M' :: [] from rfl,
    timeChunk_fail 'M' 60000000000 xs [] hatoi hMx]
  rfl

lemma parseTimePart_fail_S (acc : Int) (xs : List Char) (hatoi : goAtoi xs = none)
    (hHx : 'H' ∉ xs) (hMx : 'M' ∉ xs) (hSx : 'S' ∉ xs) :
    parseTimePart acc (xs ++ ['S']) = none := by
  unfold parseTimePart
  have hH : ('H' : Char) ∉ xs ++ ['S'] := by
    intro hm
    rcases List.mem_append.mp hm with h1 | h1
    · exact hHx h1
    · exact absurd (List.mem_singleton.mp h1) (by decide)
  have hM : ('M' : Char) ∉ xs ++ ['S'] := by
    intro hm
    rcases List.mem_append.mp hm with h1 | h1
    · exact hMx h1
    · exact absurd (List.mem_singleton.mp h1) (by decide)
  rw [timeChunk_absent 'H' 3600000000000 _ hH]
  simp only [Option.bind_eq_bind, Option.some_bind]
  rw [timeChunk_absent 'M' 60000000000 _ hM]
  simp only [Option.some_bind]
  rw [show xs ++ ['S'] = xs ++ 'S' :: [] from rfl,
    timeChunk_fail 'S' 1000000000 xs [] hatoi hSx]
  rfl

/-- A duration value text with the P prefix and optional leading sign. -/
def mkDurP (neg : Bool) (body : List Char) : List Char :=
  (if neg then ['-', 'P'] else ['P']) ++ body

/-- The signed result. -/
def sgn (neg : Bool) (x : Int) : Int := if neg then -x else x

lemma durIsNeg_mkDurP (neg : Bool) (body : List Char) :
    durIsNeg (mkDurP neg body) = neg := by
  cases neg <;> rfl

lemma durHasP_mkDurP (neg : Bool) (body : List Char) :
    durHasP (mkDurP neg body) = !neg := by
  cases neg <;> rfl

lemma mkDurP_drop (neg : Bool) (body : List Char) :
    (if neg = true then (mkDurP neg body).drop 2 else (mkDurP neg body).drop 1) = body := by
  cases neg <;> rfl

lemma parseDurationNs_week (neg : Bool) (ds : List Char) (hne : ds ≠ [])
    (hdig : ds.all isDigitCh = true)
    (hb : ((digitsVal ds : Nat) : Int) * 604800000000000 ≤ 9223372036854775807) :
    parseDurationNs (mkDurP neg (ds ++ ['W'])) =
      some (sgn neg (((digitsVal ds : Nat) : Int) * 604800000000000)) := by
  have hv0 : (0 : Int) ≤ ((digitsVal ds : Nat) : Int) := Int.natCast_nonneg _
  have hT : ('T' : Char) ∉ ds ++ ['W'] := by
    intro hm
    rcases List.mem_append.mp hm with h1 | h1
    · exact not_digit_not_mem (by decide) hdig h1
    · exact absurd (List.mem_singleton.mp h1) (by decide)
  have hsplit : splitOn 'T' (ds ++ ['W']) = [ds ++ ['W']] := splitOn_not_mem _ _ hT
  simp only [parseDurationNs, durIsNeg_mkDurP, durHasP_mkDurP, Bool.not_or_self,
    Bool.not_true, Bool.false_eq_true, if_false, mkDurP_drop, hsplit, List.headD,
    List.length_cons, List.length_nil, gt_iff_lt, Option.bind_eq_bind]
  rw [parseDatePart_week ds hne hdig hb]
  have hw : wneg (((digitsVal ds : Nat) : Int) * 604800000000000) =
      -(((digitsVal ds : Nat) : Int) * 604800000000000) := by
    unfold wneg
    exact wrap64_eq_self (by omega) (by omega)
  cases neg <;> simp [sgn, hw]

lemma parseDurationNs_daytime (neg : Bool) (dd hs ms ss : Option (List Char)) (tp : Bool)
    (hD : goodOpt dd) (hH : goodOpt hs) (hM : goodOpt ms) (hS : goodOpt ss)
    (htp : tp = false → hs = none ∧ ms = none ∧ ss = none)
    (hb : dval dd * 86400000000000 + dval hs * 3600000000000 + dval ms * 60000000000 +
      dval ss * 1000000000 ≤ 9223372036854775807) :
    parseDurationNs (mkDurP neg (optComp dd 'D' ++
        (if tp then 'T' :: (optComp hs 'H' ++ (optComp ms 'M' ++ optComp ss 'S'))
         else []))) =
      some (sgn neg (dval dd * 86400000000000 + dval hs * 3600000000000 +
        dval ms * 60000000000 + dval ss * 1000000000)) := by
  have h0D := dval_nonneg dd
  have h0H := dval_nonneg hs
  have h0M := dval_nonneg ms
  have h0S := dval_nonneg ss
  have hbD : dval dd * 86400000000000 ≤ 9223372036854775807 := by omega
  have hTd : ('T' : Char) ∉ optComp dd 'D' :=
    not_mem_optComp (by decide) (by decide) hD
  cases tp with
  | false =>
    obtain ⟨rfl, rfl, rfl⟩ := htp rfl
    have hsplit : splitOn 'T' (optComp dd 'D' ++ []) = [optComp dd 'D'] := by
      rw [List.append_nil]
      exact splitOn_not_mem _ _ hTd
    simp only [Bool.false_eq_true, if_false, parseDurationNs, durIsNeg_mkDurP,
      durHasP_mkDurP, Bool.not_or_self, Bool.not_true, mkDurP_drop, hsplit,
      List.headD, List.length_cons, List.length_nil, gt_iff_lt, Option.bind_eq_bind]
    rw [parseDatePart_day dd hD hbD]
    have hw : wneg (dval dd * 86400000000000) = -(dval dd * 86400000000000) := by
      unfold wneg
      exact wrap64_eq_self (by omega) (by omega)
    cases neg <;> simp [sgn, dval_none, hw]
  | true =>
    have hTt : ('T' : Char) ∉ optComp hs 'H' ++ (optComp ms 'M' ++ optComp ss 'S') := by
      intro hm
      rcases List.mem_append.mp hm with h1 | h1
      · exact not_mem_optComp (by decide) (by decide) hH h1
      rcases List.mem_append.mp h1 with h2 | h2
      · exact not_mem_optComp (by decide) (by decide) hM h2
      · exact not_mem_optComp (by decide) (by decide) hS h2
    have hsplit : splitOn 'T' (optComp dd 'D' ++
        'T' :: (optComp hs 'H' ++ (optComp ms 'M' ++ optComp ss 'S'))) =
        [optComp dd 'D', optComp hs 'H' ++ (optComp ms 'M' ++ optComp ss 'S')] := by
      rw [splitOn_append_sep 'T' _ _ hTd, splitOn_not_mem _ _ hTt]
    simp only [if_true, parseDurationNs, durIsNeg_mkDurP, durHasP_mkDurP,
      Bool.not_or_self, Bool.not_true, mkDurP_drop, hsplit, List.headD,
      List.length_cons, List.length_nil, gt_iff_lt, Option.bind_eq_bind,
      List.get?_cons_succ, List.get?_cons_zero, Option.getD_some]
    rw [parseDatePart_day dd hD hbD]
    simp only [Option.some_bind]
    norm_num
    by_cases htpc : optComp hs 'H' = [] ∧ optComp ms 'M' = [] ∧ optComp ss 'S' = []
    · obtain ⟨h1, h2, h3⟩ := htpc
      have e1 : hs = none := by
        cases hs with
        | none => rfl
        | some ds => simp [optComp] at h1
      have e2 : ms = none := by
        cases ms with
        | none => rfl
        | some ds => simp [optComp] at h2
      have e3 : ss = none := by
        cases ss with
        | none => rfl
        | some ds => simp [optComp] at h3
      subst e1; subst e2; subst e3
      rw [if_pos ⟨h1, h2, h3⟩]
      have hw : wneg (dval dd * 86400000000000) = -(dval dd * 86400000000000) := by
        unfold wneg
        exact wrap64_eq_self (by omega) (by omega)
      cases neg <;> simp [sgn, dval_none, hw]
    · rw [if_neg htpc,
        parseTimePart_eval (dval dd * 86400000000000) hs ms ss hH hM hS (by omega)
          (by omega)]
      simp only [Option.some_bind, Option.some.injEq]
      have hw : wneg (dval dd * 86400000000000 + dval hs * 3600000000000 +
          dval ms * 60000000000 + dval ss * 1000000000) =
          -(dval dd * 86400000000000 + dval hs * 3600000000000 +
            dval ms * 60000000000 + dval ss * 1000000000) := by
        unfold wneg
        exact wrap64_eq_self (by omega) (by omega)
      cases neg <;> simp [sgn, hw]

lemma parseDurationNs_fail_W (neg : Bool) (xs : List Char) (hatoi : goAtoi xs = none)
    (hT : 'T' ∉ xs) :
    parseDurationNs (mkDurP neg (xs ++ ['W'])) = none := by
  have hT2 : ('T' : Char) ∉ xs ++ ['W'] := by
    intro hm
    rcases List.mem_append.mp hm with h1 | h1
    · exact hT h1
    · exact absurd (List.mem_singleton.mp h1) (by decide)
  have hsplit : splitOn 'T' (xs ++ ['W']) = [xs ++ ['W']] := splitOn_not_mem _ _ hT2
  simp only [parseDurationNs, durIsNeg_mkDurP, durHasP_mkDurP, Bool.not_or_self,
    Bool.not_true, Bool.false_eq_true, if_false, mkDurP_drop, hsplit, List.headD,
    List.length_cons, List.length_nil, gt_iff_lt, Option.bind_eq_bind]
  rw [parseDatePart_week_fail xs hatoi]
  rfl

lemma parseDurationNs_fail_D (neg : Bool) (xs : List Char) (hatoi : goAtoi xs = none)
    (hT : 'T' ∉ xs) (hW : 'W' ∉ xs) :
    parseDurationNs (mkDurP neg (xs ++ ['D'])) = none := by
  have hT2 : ('T' : Char) ∉ xs ++ ['D'] := by
    intro hm
    rcases List.mem_append.mp hm with h1 | h1
    · exact hT h1
    · exact absurd (List.mem_singleton.mp h1) (by decide)
  have hsplit : splitOn 'T' (xs ++ ['D']) = [xs ++ ['D']] := splitOn_not_mem _ _ hT2
  simp only [parseDurationNs, durIsNeg_mkDurP, durHasP_mkDurP, Bool.not_or_self,
    Bool.not_true, Bool.false_eq_true, if_false, mkDurP_drop, hsplit, List.headD,
    List.length_cons, List.length_nil, gt_iff_lt, Option.bind_eq_bind]
  rw [parseDatePart_day_fail xs hatoi hW]
  rfl

lemma parseDurationNs_fail_time (neg : Bool) (u : Char) (xs : List Char)
    (hT : 'T' ∉ xs) (huT : u ≠ 'T')
    (hfail : parseTimePart 0 (xs ++ [u]) = none) :
    parseDurationNs (mkDurP neg ('T' :: (xs ++ [u]))) = none := by
  have hT2 : ('T' : Char) ∉ xs ++ [u] := by
    intro hm
    rcases List.mem_append.mp hm with h1 | h1
    · exact hT h1
    · exact huT (List.mem_singleton.mp h1).symm
  have hsplit : splitOn 'T' ('T' :: (xs ++ [u])) = [[], xs ++ [u]] := by
    rw [show splitOn 'T' ('T' :: (xs ++ [u])) = [] :: splitOn 'T' (xs ++ [u]) by
      simp [splitOn], splitOn_not_mem _ _ hT2]
  have hne : xs ++ [u] ≠ [] := by simp
  simp only [parseDurationNs, durIsNeg_mkDurP, durHasP_mkDurP, Bool.not_or_self,
    Bool.not_true, Bool.false_eq_true, if_false, mkDurP_drop, hsplit, List.headD,
    List.length_cons, List.length_nil, gt_iff_lt, Option.bind_eq_bind,
    List.get?_cons_succ, List.get?_cons_zero, Option.getD_some, parseDatePart_nil,
    Option.some_bind]
  norm_num
  intro a ha
  rw [hfail] at ha
  exact absurd ha (by simp)

lemma parseDurationNs_range_fail_W (neg : Bool) (ds : List Char)
    (hdig : ds.all isDigitCh = true)
    (hr : 9223372036854775807 < ((digitsVal ds : Nat) : Int)) :
    parseDurationNs (mkDurP neg (ds ++ ['W'])) = none :=
  parseDurationNs_fail_W neg ds (goAtoi_range_fail ds hdig hr)
    (not_digit_not_mem (by decide) hdig)

/-- C6 counterexample: the duration parser neither accepts exactly the
grammar nor always returns the corresponding signed duration: PX (outside
every reading of the grammar) is accepted as zero, PT5Sxx is accepted as
five seconds despite the trailing junk, P15251W is accepted but its
nanosecond total overflows int64 and wraps to a NEGATIVE duration, and
P99999999999999999999W, a perfectly grammatical value, is rejected because
its numeric field exceeds the int64 range of strconv.Atoi. -/
theorem claimC6_counterexample :
    parseDurationNs "PX".data = some 0 ∧
    parseDurationNs "PT5Sxx".data = some 5000000000 ∧
    parseDurationNs "P15251W".data = some (-9222939273709551616) ∧
    parseDurationNs "P99999999999999999999W".data = none := by
  exact ⟨by decide, by decide, by decide, by decide⟩

/-- C6 amended: the duration parser accepts every grammar string whose
numeric fields fit in int64 and whose total fits in the int64 count of
nanoseconds, returning exactly the corresponding signed duration (stated in
nanoseconds, time.Duration's unit); a grammatical numeric field beyond the
int64 range is a parse failure (the strconv.Atoi range error), exactly like
a non-numeric or missing field before a recognized unit letter; totals
beyond the int64 nanosecond range are accepted but wrap silently (see the
counterexample); and acceptance is not exact: content outside the grammar is
ignored and contributes zero (see the counterexample). -/
theorem claimC6_amended :
    (∀ (neg : Bool) (ds : List Char), ds ≠ [] → ds.all isDigitCh = true →
      ((digitsVal ds : Nat) : Int) * 604800000000000 ≤ 9223372036854775807 →
      parseDurationNs (mkDurP neg (ds ++ ['W'])) =
        some (sgn neg (((digitsVal ds : Nat) : Int) * 604800000000000))) ∧
    (∀ (neg : Bool) (dd hs ms ss : Option (List Char)) (tp : Bool),
      goodOpt dd → goodOpt hs → goodOpt ms → goodOpt ss →
      (tp = false → hs = none ∧ ms = none ∧ ss = none) →
      dval dd * 86400000000000 + dval hs * 3600000000000 + dval ms * 60000000000 +
        dval ss * 1000000000 ≤ 9223372036854775807 →
      parseDurationNs (mkDurP neg (optComp dd 'D' ++
          (if tp then 'T' :: (optComp hs 'H' ++ (optComp ms 'M' ++ optComp ss 'S'))
           else []))) =
        some (sgn neg (dval dd * 86400000000000 + dval hs * 3600000000000 +
          dval ms * 60000000000 + dval ss * 1000000000))) ∧
    (∀ (neg : Bool) (ds : List Char), ds.all isDigitCh = true →
      9223372036854775807 < ((digitsVal ds : Nat) : Int) →
      parseDurationNs (mkDurP neg (ds ++ ['W'])) = none) ∧
    (∀ (neg : Bool) (xs : List Char), goAtoi xs = none → 'T' ∉ xs →
      parseDurationNs (mkDurP neg (xs ++ ['W'])) = none) ∧
    (∀ (neg : Bool) (xs : List Char), goAtoi xs = none → 'T' ∉ xs → 'W' ∉ xs →
      parseDurationNs (mkDurP neg (xs ++ ['D'])) = none) ∧
    (∀ (neg : Bool) (xs : List Char), goAtoi xs = none → 'T' ∉ xs → 'H' ∉ xs →
      parseDurationNs (mkDurP neg ('T' :: (xs ++ ['H']))) = none) ∧
    (∀ (neg : Bool) (xs : List Char), goAtoi xs = none → 'T' ∉ xs → 'H' ∉ xs → 'M' ∉ xs →
      parseDurationNs (mkDurP neg ('T' :: (xs ++ ['M']))) = none) ∧
    (∀ (neg : Bool) (xs : List Char), goAtoi xs = none → 'T' ∉ xs → 'H' ∉ xs → 'M' ∉ xs →
      'S' ∉ xs → parseDurationNs (mkDurP neg ('T' :: (xs ++ ['S']))) = none) := by
  refine ⟨parseDurationNs_week, parseDurationNs_daytime, parseDurationNs_range_fail_W,
    parseDurationNs_fail_W, parseDurationNs_fail_D, ?_, ?_, ?_⟩
  · intro neg xs hatoi hT hH
    exact parseDurationNs_fail_time neg 'H' xs hT (by decide)
      (parseTimePart_fail_H 0 xs hatoi hH)
  · intro neg xs hatoi hT hHx hMx
    exact parseDurationNs_fail_time neg 'M' xs hT (by decide)
      (parseTimePart_fail_M 0 xs hatoi hHx hMx)
  · intro neg xs hatoi hT hHx hMx hSx
    exact parseDurationNs_fail_time neg 'S' xs hT (by decide)
      (parseTimePart_fail_S 0 xs hatoi hHx hMx hSx)

/-- Witness for C6 amended: concrete grammar strings parsed with the correct
signed nanosecond values (-P2W, P1DT2H3S), a grammatical but out-of-int64
numeric field rejected (P99999999999999999999W), and concrete bad numeric
fields rejected (PW, PTxH). -/
theorem claimC6_amended_witness :
    parseDurationNs (mkDurP true ("2".data ++ ['W'])) =
      some (sgn true (((digitsVal "2".data : Nat) : Int) * 604800000000000)) ∧
    parseDurationNs (mkDurP false (optComp (some "1".data) 'D' ++
        (if true then 'T' :: (optComp (some "2".data) 'H' ++
          (optComp none 'M' ++ optComp (some "3".data) 'S')) else []))) =
      some (sgn false (dval (some "1".data) * 86400000000000 +
        dval (some "2".data) * 3600000000000 + dval none * 60000000000 +
        dval (some "3".data) * 1000000000)) ∧
    parseDurationNs (mkDurP false ("99999999999999999999".data ++ ['W'])) = none ∧
    parseDurationNs (mkDurP false ([] ++ ['W'])) = none ∧
    parseDurationNs (mkDurP false ('T' :: ("x".data ++ ['H']))) = none :=
  ⟨claimC6_amended.1 true "2".data (by decide) (by decide) (by decide),
    claimC6_amended.2.1 false (some "1".data) (some "2".data) none (some "3".data) true
      (fun ds h => by cases h; exact ⟨by decide, by decide⟩)
      (fun ds h => by cases h; exact ⟨by decide, by decide⟩)
      (fun ds h => Option.noConfusion h)
      (fun ds h => by cases h; exact ⟨by decide, by decide⟩)
      (fun h => absurd h (by decide)) (by decide),
    claimC6_amended.2.2.1 false "99999999999999999999".data (by decide) (by decide),
    claimC6_amended.2.2.2.1 false [] rfl (by simp),
    claimC6_amended.2.2.2.2.2.1 false "x".data (by decide) (by decide) (by decide)⟩

end Mucal
